import Mathlib

/-!
# BiQuad: second-order recursive filter sections and chains

A shallow embedding of `src/BiQuad.cpp`.  The C++ `double` is read as an exact
field element: the stage code is written once over an arbitrary field `α`
(so that it evaluates on `ℚ`), and the statements are made over `ℝ`.
The two arrays `B[3]`, `A[2]` and the delay line `wz[2]` become the named
fields `B0 B1 B2`, `A0 A1`, `wz0 wz1`.
-/

namespace BiQuadModel

/-- The object `BiQuad`: feed-forward `B[0..2]`, feedback `A[0..1]`
(holding `a1`, `a2`), the delay line `wz[0..1]` and the reset flag. -/
structure BiQuad (α : Type) where
  B0 : α
  B1 : α
  B2 : α
  A0 : α
  A1 : α
  wz0 : α
  wz1 : α
  resetStateOnGainChange : Bool

variable {α : Type} [Field α]

/-- Source `BiQuad::set`, lines 35-48: the five stores, then the guarded clearing of `wz`. -/
def BiQuad.set (s : BiQuad α) (b0 b1 b2 a1 a2 : α) : BiQuad α :=
  let s1 : BiQuad α := { s with B0 := b0, B1 := b1, B2 := b2, A0 := a1, A1 := a2 }
  if s1.resetStateOnGainChange then { s1 with wz0 := 0, wz1 := 0 } else s1

/-- Source `BiQuad::BiQuad()`, lines 3-6.  The argument `raw` is the object before the
constructor body runs (its fields hold whatever the storage held). -/
def BiQuad.new (raw : BiQuad α) : BiQuad α :=
  BiQuad.set { raw with resetStateOnGainChange := true } 1 0 0 0 0

/-- Source `BiQuad::BiQuad(b0,b1,b2,a1,a2)`, lines 8-11. -/
def BiQuad.new5 (raw : BiQuad α) (b0 b1 b2 a1 a2 : α) : BiQuad α :=
  BiQuad.set { raw with resetStateOnGainChange := true } b0 b1 b2 a1 a2

/-- Source `BiQuad::BiQuad(b0,b1,b2,a0,a1,a2)`, lines 13-16. -/
def BiQuad.new6 (raw : BiQuad α) (b0 b1 b2 a0 a1 a2 : α) : BiQuad α :=
  BiQuad.set { raw with resetStateOnGainChange := true }
    (b0 / a0) (b1 / a0) (b2 / a0) (a1 / a0) (a2 / a0)

/-- Source `BiQuad::setResetStateOnGainChange`, lines 99-101. -/
def BiQuad.setResetStateOnGainChange (s : BiQuad α) (v : Bool) : BiQuad α :=
  { s with resetStateOnGainChange := v }

/-- Source `BiQuad::step`, lines 50-61.  Returns the output sample and the stage after
the call.  The three assignments are kept in source order: `y` from the old
`wz[0]`, then `wz[0]` from `y` and the old `wz[1]`, then `wz[1]`. -/
def BiQuad.step (s : BiQuad α) (x : α) : α × BiQuad α :=
  let y := s.B0 * x + s.wz0
  let s1 : BiQuad α := { s with wz0 := s.B1 * x - s.A0 * y + s.wz1 }
  let s2 : BiQuad α := { s1 with wz1 := s1.B2 * x - s1.A1 * y }
  (y, s2)

/-- Successive calls of `BiQuad::step` on one stage, one per input sample:
the list of returned samples and the stage after the last call. -/
def BiQuad.run : BiQuad α → List α → List α × BiQuad α
  | s, [] => ([], s)
  | s, x :: xs =>
    let r := s.step x
    let t := BiQuad.run r.2 xs
    (r.1 :: t.1, t.2)

/-! ## Poles, zeros, stability (`std::complex<double>` read as `ℂ`) -/

/-- Models `std::sqrt` on `std::complex`: the principal square root (branch cut along
the negative real axis, a negative real with imaginary part `+0` goes to the
positive imaginary axis). -/
noncomputable def csqrt (z : ℂ) : ℂ := z ^ (2⁻¹ : ℂ)

/-- Source `BiQuad::poles`, lines 63-75: the two values pushed, in push order. -/
noncomputable def BiQuad.poles (s : BiQuad ℝ) : List ℂ :=
  let b2 : ℂ := ⟨s.A0 * s.A0, 0⟩
  let ds : ℂ := csqrt (b2 - ((4 * s.A1 : ℝ) : ℂ))
  [((0.5 : ℝ) : ℂ) * (((-s.A0 : ℝ) : ℂ) + ds),
   ((0.5 : ℝ) : ℂ) * (((-s.A0 : ℝ) : ℂ) - ds)]

/-- Source `BiQuad::zeros`, lines 77-89: the two values pushed, in push order. -/
noncomputable def BiQuad.zeros (s : BiQuad ℝ) : List ℂ :=
  let b2 : ℂ := ⟨s.B1 * s.B1, 0⟩
  let ds : ℂ := csqrt (b2 - ((4 * s.B0 * s.B2 : ℝ) : ℂ))
  [((0.5 : ℝ) : ℂ) * (((-s.B1 : ℝ) : ℂ) + ds) / ((s.B0 : ℝ) : ℂ),
   ((0.5 : ℝ) : ℂ) * (((-s.B1 : ℝ) : ℂ) - ds) / ((s.B0 : ℝ) : ℂ)]

/-- Source `BiQuad::stable`, lines 91-97: the loop over `ps` accumulating with `&`. -/
noncomputable def BiQuad.stable (s : BiQuad ℝ) : Bool :=
  s.poles.foldl (fun stable p => stable && decide (Complex.abs p < 1)) true

/-! ## Chains

`BiQuadChain` holds `BiQuad*` pointers.  A pointer is an address `ℕ`; the
stages live in a store mapping each address to the object found there, so a
stage added twice is one object stepped twice. -/

/-- The stages a chain can point to, by address. -/
abbrev Store (α : Type) := ℕ → BiQuad α

/-- The object `BiQuadChain`: the vector `biquads` of pointers. -/
structure BiQuadChain where
  biquads : List ℕ

/-- A default-constructed `BiQuadChain` (empty vector). -/
def BiQuadChain.empty : BiQuadChain := ⟨[]⟩

/-- Source `BiQuadChain::add`, lines 103-106: `push_back`. -/
def BiQuadChain.add (c : BiQuadChain) (bq : ℕ) : BiQuadChain :=
  ⟨c.biquads ++ [bq]⟩

/-- Source `operator*(BiQuad&, BiQuad&)`, lines 108-112. -/
def BiQuadChain.compose (bq1 bq2 : ℕ) : BiQuadChain :=
  (BiQuadChain.empty.add bq1).add bq2

/-- Source `BiQuadChain::operator*(BiQuad&)`, lines 159-162. -/
def BiQuadChain.combineWith (c : BiQuadChain) (bq : ℕ) : BiQuadChain :=
  c.add bq

/-- The loop of `BiQuadChain::step`, lines 121-122, over the pointers still to
visit: each pointed-to stage is stepped in place and its result becomes `x`. -/
def BiQuadChain.stepLoop : List ℕ → Store α → α → α × Store α
  | [], mem, x => (x, mem)
  | p :: ps, mem, x =>
    let r := (mem p).step x
    BiQuadChain.stepLoop ps (Function.update mem p r.2) r.1

/-- Source `BiQuadChain::step`, lines 114-125: the returned sample and the store after
the call. -/
def BiQuadChain.step (c : BiQuadChain) (mem : Store α) (x : α) : α × Store α :=
  BiQuadChain.stepLoop c.biquads mem x

/-- The loop of `BiQuadChain::poles_zeros`, lines 135-138: `chain` is the
vector built so far, each stage's vector is inserted at its end. -/
noncomputable def BiQuadChain.poles_zerosLoop (zeros : Bool) (mem : Store ℝ) :
    List ℕ → List ℂ → List ℂ
  | [], chain => chain
  | p :: ps, chain =>
    let bq := if zeros then (mem p).zeros else (mem p).poles
    BiQuadChain.poles_zerosLoop zeros mem ps (chain ++ bq)

/-- Source `BiQuadChain::poles_zeros`, lines 127-142. -/
noncomputable def BiQuadChain.poles_zeros (c : BiQuadChain) (mem : Store ℝ)
    (zeros : Bool) : List ℂ :=
  BiQuadChain.poles_zerosLoop zeros mem c.biquads []

/-- Source `BiQuadChain::poles`, lines 144-146. -/
noncomputable def BiQuadChain.poles (c : BiQuadChain) (mem : Store ℝ) : List ℂ :=
  c.poles_zeros mem false

/-- Source `BiQuadChain::zeros`, lines 148-150. -/
noncomputable def BiQuadChain.zeros (c : BiQuadChain) (mem : Store ℝ) : List ℂ :=
  c.poles_zeros mem true

/-- Source `BiQuadChain::stable`, lines 152-157. -/
noncomputable def BiQuadChain.stable (c : BiQuadChain) (mem : Store ℝ) : Bool :=
  c.biquads.foldl (fun stable p => stable && (mem p).stable) true

/-! ## Coefficient design -/

/-- Source `BiQuad::PIDF`, lines 18-33: the locals in source order, then `set`. -/
def BiQuad.PIDF (s : BiQuad α) (Kp Ki Kd N Ts : α) : BiQuad α :=
  let a1 := -4 / (N * Ts + 2)
  let a2 := -(N * Ts - 2) / (N * Ts + 2)
  let bd := N * Ts + 2
  let b0 := (4 * Kp + 4 * Kd * N + 2 * Ki * Ts + 2 * Kp * N * Ts + Ki * N * Ts * Ts) / (2 * bd)
  let b1 := (Ki * N * Ts * Ts - 4 * Kp - 4 * Kd * N) / bd
  let b2 := (4 * Kp + 4 * Kd * N - 2 * Ki * Ts - 2 * Kp * N * Ts + Ki * N * Ts * Ts) / (2 * bd)
  s.set b0 b1 b2 a1 a2

/-- Modelled from the spec: the enumeration `bq_type_t` is declared in
`BiQuad.h`, which is not among the sources.  Its eight recognised values are
the ones the specification lists (`lowpass, highpass, bandpass, notch, peak,
lowshelf, highshelf, unity`); `unrecognized v` stands for any other integer
value a variable of the enumeration type can hold. -/
inductive bq_type_t where
  | bq_type_lowpass
  | bq_type_highpass
  | bq_type_bandpass
  | bq_type_notch
  | bq_type_peak
  | bq_type_lowshelf
  | bq_type_highshelf
  | bq_type_unity
  | unrecognized (v : ℤ)
  deriving DecidableEq

/-- Source `setCoefficients`, lines 167-276.  Returns the `bool` result and the
stage `bq` after the call.  The locals keep the source's names (`a0, a1, a2`
are handed to `set` as `b0, b1, b2` and `b1, b2` as `a1, a2`); `pow(10, ·)` is
the real power, `tan`, `sqrt`, `fabs` the real functions. -/
noncomputable def setCoefficients (type : bq_type_t) (Fc Q peakGainDB : ℝ)
    (bq : BiQuad ℝ) : Bool × BiQuad ℝ :=
  let V : ℝ := (10 : ℝ) ^ (|peakGainDB| / 20)
  let K : ℝ := Real.tan (Real.pi * Fc)
  match type with
  | .bq_type_lowpass =>
    let norm := 1 / (1 + K / Q + K * K)
    let a0 := K * K * norm
    let a1 := 2 * a0
    let a2 := a0
    let b1 := 2 * (K * K - 1) * norm
    let b2 := (1 - K / Q + K * K) * norm
    (true, bq.set a0 a1 a2 b1 b2)
  | .bq_type_highpass =>
    let norm := 1 / (1 + K / Q + K * K)
    let a0 := 1 * norm
    let a1 := -2 * a0
    let a2 := a0
    let b1 := 2 * (K * K - 1) * norm
    let b2 := (1 - K / Q + K * K) * norm
    (true, bq.set a0 a1 a2 b1 b2)
  | .bq_type_bandpass =>
    let norm := 1 / (1 + K / Q + K * K)
    let a0 := K / Q * norm
    let a1 := 0
    let a2 := -a0
    let b1 := 2 * (K * K - 1) * norm
    let b2 := (1 - K / Q + K * K) * norm
    (true, bq.set a0 a1 a2 b1 b2)
  | .bq_type_notch =>
    let norm := 1 / (1 + K / Q + K * K)
    let a0 := (1 + K * K) * norm
    let a1 := 2 * (K * K - 1) * norm
    let a2 := a0
    let b1 := a1
    let b2 := (1 - K / Q + K * K) * norm
    (true, bq.set a0 a1 a2 b1 b2)
  | .bq_type_peak =>
    if peakGainDB ≥ 0 then
      let norm := 1 / (1 + 1 / Q * K + K * K)
      let a0 := (1 + V / Q * K + K * K) * norm
      let a1 := 2 * (K * K - 1) * norm
      let a2 := (1 - V / Q * K + K * K) * norm
      let b1 := a1
      let b2 := (1 - 1 / Q * K + K * K) * norm
      (true, bq.set a0 a1 a2 b1 b2)
    else
      let norm := 1 / (1 + V / Q * K + K * K)
      let a0 := (1 + 1 / Q * K + K * K) * norm
      let a1 := 2 * (K * K - 1) * norm
      let a2 := (1 - 1 / Q * K + K * K) * norm
      let b1 := a1
      let b2 := (1 - V / Q * K + K * K) * norm
      (true, bq.set a0 a1 a2 b1 b2)
  | .bq_type_lowshelf =>
    if peakGainDB ≥ 0 then
      let norm := 1 / (1 + Real.sqrt 2 * K + K * K)
      let a0 := (1 + Real.sqrt (2 * V) * K + V * K * K) * norm
      let a1 := 2 * (V * K * K - 1) * norm
      let a2 := (1 - Real.sqrt (2 * V) * K + V * K * K) * norm
      let b1 := 2 * (K * K - 1) * norm
      let b2 := (1 - Real.sqrt 2 * K + K * K) * norm
      (true, bq.set a0 a1 a2 b1 b2)
    else
      let norm := 1 / (1 + Real.sqrt (2 * V) * K + V * K * K)
      let a0 := (1 + Real.sqrt 2 * K + K * K) * norm
      let a1 := 2 * (K * K - 1) * norm
      let a2 := (1 - Real.sqrt 2 * K + K * K) * norm
      let b1 := 2 * (V * K * K - 1) * norm
      let b2 := (1 - Real.sqrt (2 * V) * K + V * K * K) * norm
      (true, bq.set a0 a1 a2 b1 b2)
  | .bq_type_highshelf =>
    if peakGainDB ≥ 0 then
      let norm := 1 / (1 + Real.sqrt 2 * K + K * K)
      let a0 := (V + Real.sqrt (2 * V) * K + K * K) * norm
      let a1 := 2 * (K * K - V) * norm
      let a2 := (V - Real.sqrt (2 * V) * K + K * K) * norm
      let b1 := 2 * (K * K - 1) * norm
      let b2 := (1 - Real.sqrt 2 * K + K * K) * norm
      (true, bq.set a0 a1 a2 b1 b2)
    else
      let norm := 1 / (V + Real.sqrt (2 * V) * K + K * K)
      let a0 := (1 + Real.sqrt 2 * K + K * K) * norm
      let a1 := 2 * (K * K - 1) * norm
      let a2 := (1 - Real.sqrt 2 * K + K * K) * norm
      let b1 := 2 * (K * K - V) * norm
      let b2 := (V - Real.sqrt (2 * V) * K + K * K) * norm
      (true, bq.set a0 a1 a2 b1 b2)
  | .bq_type_unity =>
    let a0 := 1.0
    let a1 := 0.0
    let a2 := 0.0
    let b1 := 0.0
    let b2 := 0.0
    (true, bq.set a0 a1 a2 b1 b2)
  | .unrecognized _ => (false, bq)

/-! ## Reference behaviour used in the statements -/

/-- The value is one of the eight recognised filter types. -/
def bq_type_t.isRecognized (t : bq_type_t) : Prop :=
  t = .bq_type_lowpass ∨ t = .bq_type_highpass ∨ t = .bq_type_bandpass ∨
  t = .bq_type_notch ∨ t = .bq_type_peak ∨ t = .bq_type_lowshelf ∨
  t = .bq_type_highshelf ∨ t = .bq_type_unity

/-- The transfer function `(b0*z^2 + b1*z + b2) / (z^2 + a1*z + a2)` of a stage,
evaluated at a complex `z`. -/
noncomputable def BiQuad.transfer (s : BiQuad ℝ) (z : ℂ) : ℂ :=
  ((s.B0 : ℂ) * z ^ 2 + (s.B1 : ℂ) * z + (s.B2 : ℂ)) / (z ^ 2 + (s.A0 : ℂ) * z + (s.A1 : ℂ))

/-- The numerator `N(s)` of the analog prototype `N(s) / (s^2 + s/Q + 1)` of
the four plain filter types: `1` for lowpass, `s^2` for highpass, `s/Q` for
bandpass, `s^2 + 1` for notch (no prototype is listed for the other types). -/
noncomputable def prototypeNumerator (t : bq_type_t) (Q : ℝ) (s : ℂ) : ℂ :=
  match t with
  | .bq_type_lowpass => 1
  | .bq_type_highpass => s ^ 2
  | .bq_type_bandpass => s / (Q : ℂ)
  | .bq_type_notch => s ^ 2 + 1
  | _ => 0

/-- Two stage values carry the same five coefficients. -/
def BiQuad.sameCoeffs (s t : BiQuad α) : Prop :=
  s.B0 = t.B0 ∧ s.B1 = t.B1 ∧ s.B2 = t.B2 ∧ s.A0 = t.A0 ∧ s.A1 = t.A1

/-- The relation kept between the delay lines of the cascade `a`-then-`b` and
those of the reversed cascade `b2`-then-`a2` (same coefficients, `a2` for `a`
and `b2` for `b`): the cubic `QB (wa0 + wa1 X) + PA (wb0 + wb1 X)` of the
first equals `QA (wb0 + wb1 X) + PB (wa0 + wa1 X)` of the second, coefficient
by coefficient, where `Q = b0 + b1 X + b2 X^2` and `P = 1 + a1 X + a2 X^2`. -/
def swapRel (a b a2 b2 : BiQuad α) : Prop :=
  a.sameCoeffs a2 ∧ b.sameCoeffs b2 ∧
  b.B0 * a.wz0 + b.wz0 = a.B0 * b2.wz0 + a2.wz0 ∧
  b.B1 * a.wz0 + b.B0 * a.wz1 + a.A0 * b.wz0 + b.wz1
    = a.B1 * b2.wz0 + a.B0 * b2.wz1 + b.A0 * a2.wz0 + a2.wz1 ∧
  b.B2 * a.wz0 + b.B1 * a.wz1 + a.A1 * b.wz0 + a.A0 * b.wz1
    = a.B2 * b2.wz0 + a.B1 * b2.wz1 + b.A1 * a2.wz0 + b.A0 * a2.wz1 ∧
  b.B2 * a.wz1 + a.A1 * b.wz1 = a.B2 * b2.wz1 + b.A1 * a2.wz1

/-- A stage that is a pure scalar gain: everything but `b0` is zero. -/
def BiQuad.isPureGain (s : BiQuad α) : Prop :=
  s.B1 = 0 ∧ s.B2 = 0 ∧ s.A0 = 0 ∧ s.A1 = 0

/-- Successive calls of `BiQuadChain::step`, one per input sample: the list of
returned samples and the store after the last call. -/
def BiQuadChain.run (c : BiQuadChain) : Store α → List α → List α × Store α
  | mem, [] => ([], mem)
  | mem, x :: xs =>
    let r := c.step mem x
    let t := BiQuadChain.run c r.2 xs
    (r.1 :: t.1, t.2)

/-- A store holding stage `a` at address 0 and stage `b` everywhere else
(in particular at address 1). -/
def twoStages (a b : BiQuad α) : Store α :=
  fun p => if p = 0 then a else b

/-- The first three impulse-response samples as the specification lists them:
`[b0, b1 − a1·b0, b2 − a2·b1 + a1²·b0 − a1·(b1 − a1·b0)]`. -/
def impulseListed (b0 b1 b2 a1 a2 : α) : List α :=
  [b0, b1 - a1 * b0, b2 - a2 * b1 + a1 ^ 2 * b0 - a1 * (b1 - a1 * b0)]


/-- The stages found at the pointers of a list, in list order. -/
def stagesAt (mem : Store α) (ps : List ℕ) : List (BiQuad α) :=
  ps.map mem

/-- The nested call `sn.step(... s2.step(s1.step(x)) ...)` on stage values:
only the returned samples are threaded. -/
def cascade : List (BiQuad α) → α → α
  | [], x => x
  | s :: ss, x => cascade ss (s.step x).1

/-! ## Stage: `step`, `set`, constructors -/

theorem BiQuad.run_nil (s : BiQuad α) : BiQuad.run s [] = ([], s) := rfl

theorem BiQuad.run_cons (s : BiQuad α) (x : α) (xs : List α) :
    BiQuad.run s (x :: xs) =
      ((s.step x).1 :: (BiQuad.run (s.step x).2 xs).1, (BiQuad.run (s.step x).2 xs).2) := rfl

theorem BiQuad.step_flag (s : BiQuad α) (x : α) :
    (s.step x).2.resetStateOnGainChange = s.resetStateOnGainChange := rfl

theorem BiQuad.run_flag (xs : List α) (s : BiQuad α) :
    (BiQuad.run s xs).2.resetStateOnGainChange = s.resetStateOnGainChange := by
  induction xs generalizing s with
  | nil => rfl
  | cons x xs ih => rw [BiQuad.run_cons]; exact (ih _).trans (BiQuad.step_flag s x)

theorem BiQuad.set_after_run (s : BiQuad α) (xs : List α) (b0 b1 b2 a1 a2 : α)
    (h : s.resetStateOnGainChange = true) :
    ((BiQuad.run s xs).2.set b0 b1 b2 a1 a2).wz0 = 0 ∧
    ((BiQuad.run s xs).2.set b0 b1 b2 a1 a2).wz1 = 0 := by
  have hf : (BiQuad.run s xs).2.resetStateOnGainChange = true :=
    (BiQuad.run_flag xs s).trans h
  simp [BiQuad.set, hf]

theorem BiQuad.new_eq (raw : BiQuad α) :
    BiQuad.new raw = ⟨1, 0, 0, 0, 0, 0, 0, true⟩ := by
  simp [BiQuad.new, BiQuad.set]

theorem BiQuad.new5_eq (raw : BiQuad α) (b0 b1 b2 a1 a2 : α) :
    BiQuad.new5 raw b0 b1 b2 a1 a2 = ⟨b0, b1, b2, a1, a2, 0, 0, true⟩ := by
  simp [BiQuad.new5, BiQuad.set]

theorem BiQuad.new6_eq (raw : BiQuad α) (b0 b1 b2 a0 a1 a2 : α) :
    BiQuad.new6 raw b0 b1 b2 a0 a1 a2 =
      ⟨b0 / a0, b1 / a0, b2 / a0, a1 / a0, a2 / a0, 0, 0, true⟩ := by
  simp [BiQuad.new6, BiQuad.set]

theorem BiQuad.step_unity (x : α) :
    BiQuad.step (⟨1, 0, 0, 0, 0, 0, 0, true⟩ : BiQuad α) x =
      (x, ⟨1, 0, 0, 0, 0, 0, 0, true⟩) := by
  simp [BiQuad.step]

theorem BiQuad.run_unity (xs : List α) :
    BiQuad.run (⟨1, 0, 0, 0, 0, 0, 0, true⟩ : BiQuad α) xs =
      (xs, ⟨1, 0, 0, 0, 0, 0, 0, true⟩) := by
  induction xs with
  | nil => rfl
  | cons x xs ih => rw [BiQuad.run_cons, BiQuad.step_unity]; simp [ih]

/-- C1: for a stage with coefficients `(b0,b1,b2,a1,a2)`, state `(w0,w1)` and
reset flag `r`, `step x` returns `y = b0*x + w0` and leaves the stage with the
same coefficients and flag and with state `(b1*x - a1*y + w1, b2*x - a2*y)`,
the `w0`, `w1` on the right being the values before the call. -/
theorem step_direct_form_II_transposed (b0 b1 b2 a1 a2 w0 w1 x : ℝ) (r : Bool) :
    BiQuad.step (⟨b0, b1, b2, a1, a2, w0, w1, r⟩ : BiQuad ℝ) x =
      (b0 * x + w0,
        ⟨b0, b1, b2, a1, a2,
          b1 * x - a1 * (b0 * x + w0) + w1, b2 * x - a2 * (b0 * x + w0), r⟩) := by
  rfl

/-- C2 (as listed, refuted): with `b0 = 1`, `a1 = 1` and the other coefficients
zero, the three samples returned for the inputs `1, 0, 0` from zero state are
`1, -1, 1`, while the listed third sample evaluates to `2`. -/
theorem impulse_listed_third_sample_fails :
    (BiQuad.run (⟨1, 0, 0, 1, 0, 0, 0, true⟩ : BiQuad ℝ) [1, 0, 0]).1 = [1, -1, 1] ∧
    impulseListed (1 : ℝ) 0 0 1 0 = [1, -1, 2] ∧
    (BiQuad.run (⟨1, 0, 0, 1, 0, 0, 0, true⟩ : BiQuad ℝ) [1, 0, 0]).1
      ≠ impulseListed (1 : ℝ) 0 0 1 0 := by
  have h1 : (BiQuad.run (⟨1, 0, 0, 1, 0, 0, 0, true⟩ : BiQuad ℝ) [1, 0, 0]).1
      = [1, -1, 1] := by
    norm_num [BiQuad.run, BiQuad.step]
  have h2 : impulseListed (1 : ℝ) 0 0 1 0 = [1, -1, 2] := by
    norm_num [impulseListed]
  refine ⟨h1, h2, ?_⟩
  rw [h1, h2]
  norm_num

/-- C2 (amended): from zero state, three successive `step` calls with inputs
`1, 0, 0` return `b0`, then `b1 - a1*b0`, then `b2 - a2*b0 - a1*(b1 - a1*b0)`. -/
theorem impulse_first_three_samples (b0 b1 b2 a1 a2 : ℝ) (r : Bool) :
    (BiQuad.run (⟨b0, b1, b2, a1, a2, 0, 0, r⟩ : BiQuad ℝ) [1, 0, 0]).1 =
      [b0, b1 - a1 * b0, b2 - a2 * b0 - a1 * (b1 - a1 * b0)] := by
  simp only [BiQuad.run, BiQuad.step]
  refine congrArg₂ _ (by ring) (congrArg₂ _ (by ring) (congrArg₂ _ (by ring) rfl))

/-- C3: `set b0 b1 b2 a1 a2` stores the five coefficients and keeps the reset
flag; the state becomes `(0,0)` when the flag is true and is kept when it is
false.  Each of the three constructors leaves the flag true and `step` keeps
it, so after any `step` calls on a constructed stage `set` zeroes the state;
after `setResetStateOnGainChange false`, `set` keeps the state. -/
theorem set_stores_and_resets (s : BiQuad ℝ) (b0 b1 b2 a1 a2 : ℝ) :
    ((s.set b0 b1 b2 a1 a2).B0 = b0 ∧ (s.set b0 b1 b2 a1 a2).B1 = b1 ∧
      (s.set b0 b1 b2 a1 a2).B2 = b2 ∧ (s.set b0 b1 b2 a1 a2).A0 = a1 ∧
      (s.set b0 b1 b2 a1 a2).A1 = a2) ∧
    (s.set b0 b1 b2 a1 a2).resetStateOnGainChange = s.resetStateOnGainChange ∧
    (s.set b0 b1 b2 a1 a2).wz0 = (if s.resetStateOnGainChange then 0 else s.wz0) ∧
    (s.set b0 b1 b2 a1 a2).wz1 = (if s.resetStateOnGainChange then 0 else s.wz1) ∧
    (∀ (raw : BiQuad ℝ) (c0 c1 c2 c3 c4 c5 : ℝ),
      (BiQuad.new raw).resetStateOnGainChange = true ∧
      (BiQuad.new5 raw c0 c1 c2 c3 c4).resetStateOnGainChange = true ∧
      (BiQuad.new6 raw c0 c1 c2 c3 c4 c5).resetStateOnGainChange = true) ∧
    (∀ (raw : BiQuad ℝ) (c0 c1 c2 c3 c4 c5 : ℝ) (xs : List ℝ),
      ((BiQuad.run (BiQuad.new raw) xs).2.set b0 b1 b2 a1 a2).wz0 = 0 ∧
      ((BiQuad.run (BiQuad.new raw) xs).2.set b0 b1 b2 a1 a2).wz1 = 0 ∧
      ((BiQuad.run (BiQuad.new5 raw c0 c1 c2 c3 c4) xs).2.set b0 b1 b2 a1 a2).wz0 = 0 ∧
      ((BiQuad.run (BiQuad.new5 raw c0 c1 c2 c3 c4) xs).2.set b0 b1 b2 a1 a2).wz1 = 0 ∧
      ((BiQuad.run (BiQuad.new6 raw c0 c1 c2 c3 c4 c5) xs).2.set b0 b1 b2 a1 a2).wz0 = 0 ∧
      ((BiQuad.run (BiQuad.new6 raw c0 c1 c2 c3 c4 c5) xs).2.set b0 b1 b2 a1 a2).wz1 = 0) ∧
    ((s.setResetStateOnGainChange false).set b0 b1 b2 a1 a2).wz0 = s.wz0 ∧
    ((s.setResetStateOnGainChange false).set b0 b1 b2 a1 a2).wz1 = s.wz1 := by
  refine ⟨?_, ?_, ?_, ?_, ?_, ?_, ?_, ?_⟩
  · cases h : s.resetStateOnGainChange <;> simp [BiQuad.set, h]
  · cases h : s.resetStateOnGainChange <;> simp [BiQuad.set, h]
  · cases h : s.resetStateOnGainChange <;> simp [BiQuad.set, h]
  · cases h : s.resetStateOnGainChange <;> simp [BiQuad.set, h]
  · intro raw c0 c1 c2 c3 c4 c5
    rw [BiQuad.new_eq, BiQuad.new5_eq, BiQuad.new6_eq]
    exact ⟨rfl, rfl, rfl⟩
  · intro raw c0 c1 c2 c3 c4 c5 xs
    have h0 := BiQuad.set_after_run (BiQuad.new raw) xs b0 b1 b2 a1 a2
      (by rw [BiQuad.new_eq])
    have h5 := BiQuad.set_after_run (BiQuad.new5 raw c0 c1 c2 c3 c4) xs b0 b1 b2 a1 a2
      (by rw [BiQuad.new5_eq])
    have h6 := BiQuad.set_after_run (BiQuad.new6 raw c0 c1 c2 c3 c4 c5) xs b0 b1 b2 a1 a2
      (by rw [BiQuad.new6_eq])
    exact ⟨h0.1, h0.2, h5.1, h5.2, h6.1, h6.2⟩
  · simp [BiQuad.set, BiQuad.setResetStateOnGainChange]
  · simp [BiQuad.set, BiQuad.setResetStateOnGainChange]

/-- C4: on a default-constructed stage, for every input list, the samples
returned by the successive `step` calls are the inputs themselves, and after
every call (every number `n` of inputs consumed) the state is `(0,0)`. -/
theorem unity_stage_transparent (raw : BiQuad ℝ) (xs : List ℝ) :
    (BiQuad.run (BiQuad.new raw) xs).1 = xs ∧
    ∀ n : ℕ, (BiQuad.run (BiQuad.new raw) (xs.take n)).2.wz0 = 0 ∧
      (BiQuad.run (BiQuad.new raw) (xs.take n)).2.wz1 = 0 := by
  rw [BiQuad.new_eq]
  refine ⟨by rw [BiQuad.run_unity], fun n => ?_⟩
  rw [BiQuad.run_unity]
  exact ⟨rfl, rfl⟩

/-! ## Poles, zeros and stability of one stage -/

theorem csqrt_mul_self (z : ℂ) : csqrt z * csqrt z = z := by
  have h := Complex.cpow_nat_inv_pow z (two_ne_zero : (2 : ℕ) ≠ 0)
  simp only [Nat.cast_ofNat] at h
  rw [← pow_two]
  exact h

theorem csqrt_ofReal_nonneg {x : ℝ} (hx : 0 ≤ x) :
    csqrt (x : ℂ) = ((Real.sqrt x : ℝ) : ℂ) := by
  unfold csqrt
  rw [Real.sqrt_eq_rpow, Complex.ofReal_cpow hx]
  norm_num

theorem csqrt_ofReal_nonpos {x : ℝ} (hx : x ≤ 0) :
    csqrt (x : ℂ) = ((Real.sqrt (-x) : ℝ) : ℂ) * Complex.I := by
  unfold csqrt
  rw [Complex.ofReal_cpow_of_nonpos hx]
  have h1 : ((-x : ℝ) : ℂ) ^ (2⁻¹ : ℂ) = ((Real.sqrt (-x) : ℝ) : ℂ) := by
    rw [Real.sqrt_eq_rpow, Complex.ofReal_cpow (by linarith)]
    norm_num
  have h2 : Complex.exp ((Real.pi : ℂ) * Complex.I * 2⁻¹) = Complex.I := by
    have h3 : (Real.pi : ℂ) * Complex.I * 2⁻¹ = ((Real.pi / 2 : ℝ) : ℂ) * Complex.I := by
      push_cast
      ring
    rw [h3, Complex.exp_mul_I, ← Complex.ofReal_cos, ← Complex.ofReal_sin]
    simp
  rw [← Complex.ofReal_neg, h1, h2]

/-- The discriminant handed to `std::sqrt` in `poles`, as a real number. -/
theorem BiQuad.poles_eq (s : BiQuad ℝ) :
    s.poles =
      [(1 / 2 : ℂ) * (-(s.A0 : ℂ) + csqrt ((s.A0 * s.A0 - 4 * s.A1 : ℝ) : ℂ)),
       (1 / 2 : ℂ) * (-(s.A0 : ℂ) - csqrt ((s.A0 * s.A0 - 4 * s.A1 : ℝ) : ℂ))] := by
  have hd : ((⟨s.A0 * s.A0, 0⟩ : ℂ) - ((4 * s.A1 : ℝ) : ℂ))
      = ((s.A0 * s.A0 - 4 * s.A1 : ℝ) : ℂ) := by
    apply Complex.ext <;> simp
  have hh : ((0.5 : ℝ) : ℂ) = 1 / 2 := by
    norm_num
  simp only [BiQuad.poles, hd, hh, Complex.ofReal_neg]

theorem BiQuad.zeros_eq (s : BiQuad ℝ) :
    s.zeros =
      [(1 / 2 : ℂ) * (-(s.B1 : ℂ) + csqrt ((s.B1 * s.B1 - 4 * s.B0 * s.B2 : ℝ) : ℂ))
          / (s.B0 : ℂ),
       (1 / 2 : ℂ) * (-(s.B1 : ℂ) - csqrt ((s.B1 * s.B1 - 4 * s.B0 * s.B2 : ℝ) : ℂ))
          / (s.B0 : ℂ)] := by
  have hd : ((⟨s.B1 * s.B1, 0⟩ : ℂ) - ((4 * s.B0 * s.B2 : ℝ) : ℂ))
      = ((s.B1 * s.B1 - 4 * s.B0 * s.B2 : ℝ) : ℂ) := by
    apply Complex.ext <;> simp
  have hh : ((0.5 : ℝ) : ℂ) = 1 / 2 := by
    norm_num
  simp only [BiQuad.zeros, hd, hh, Complex.ofReal_neg]

theorem BiQuad.poles_form (s : BiQuad ℝ) :
    ∃ d : ℂ, d * d = (s.A0 : ℂ) * (s.A0 : ℂ) - 4 * (s.A1 : ℂ) ∧
      s.poles = [(1 / 2 : ℂ) * (-(s.A0 : ℂ) + d), (1 / 2 : ℂ) * (-(s.A0 : ℂ) - d)] := by
  refine ⟨csqrt ((s.A0 * s.A0 - 4 * s.A1 : ℝ) : ℂ), ?_, s.poles_eq⟩
  rw [csqrt_mul_self]
  push_cast
  ring

theorem BiQuad.zeros_form (s : BiQuad ℝ) :
    ∃ d : ℂ, d * d = (s.B1 : ℂ) * (s.B1 : ℂ) - 4 * (s.B0 : ℂ) * (s.B2 : ℂ) ∧
      s.zeros = [(1 / 2 : ℂ) * (-(s.B1 : ℂ) + d) / (s.B0 : ℂ),
                 (1 / 2 : ℂ) * (-(s.B1 : ℂ) - d) / (s.B0 : ℂ)] := by
  refine ⟨csqrt ((s.B1 * s.B1 - 4 * s.B0 * s.B2 : ℝ) : ℂ), ?_, s.zeros_eq⟩
  rw [csqrt_mul_self]
  push_cast
  ring

theorem BiQuad.stable_eq (s : BiQuad ℝ) (p1 p2 : ℂ) (h : s.poles = [p1, p2]) :
    s.stable = (decide (Complex.abs p1 < 1) && decide (Complex.abs p2 < 1)) := by
  simp [BiQuad.stable, h]

/-- With `a1 = 0` and `a2 ≥ 0` both poles have modulus `√(4*a2) / 2`. -/
theorem BiQuad.stable_of_A0_zero (s : BiQuad ℝ) (h0 : s.A0 = 0) (h1 : 0 ≤ s.A1) :
    s.stable = decide (s.A1 < 1) := by
  have hx : s.A0 * s.A0 - 4 * s.A1 ≤ 0 := by
    rw [h0]
    linarith
  have hp := s.poles_eq
  rw [csqrt_ofReal_nonpos hx] at hp
  rw [s.stable_eq _ _ hp, h0]
  have hr : Real.sqrt (-(0 * 0 - 4 * s.A1)) = 2 * Real.sqrt s.A1 := by
    have h4 : -(0 * 0 - 4 * s.A1) = 2 ^ 2 * s.A1 := by ring
    rw [h4, Real.sqrt_mul (by norm_num), Real.sqrt_sq (by norm_num)]
  have ha1 : Complex.abs ((1 / 2 : ℂ) *
      (-((0 : ℝ) : ℂ) + ((Real.sqrt (-(0 * 0 - 4 * s.A1)) : ℝ) : ℂ) * Complex.I))
        = Real.sqrt s.A1 := by
    rw [hr]
    simp only [Complex.ofReal_zero, neg_zero, zero_add, map_mul, Complex.abs_I, mul_one,
      Complex.abs_ofReal]
    rw [abs_of_nonneg (by positivity)]
    simp
  have ha2 : Complex.abs ((1 / 2 : ℂ) *
      (-((0 : ℝ) : ℂ) - ((Real.sqrt (-(0 * 0 - 4 * s.A1)) : ℝ) : ℂ) * Complex.I))
        = Real.sqrt s.A1 := by
    rw [hr]
    simp only [Complex.ofReal_zero, neg_zero, zero_sub, map_mul, map_neg_eq_map, Complex.abs_I,
      mul_one, Complex.abs_ofReal]
    rw [abs_of_nonneg (by positivity)]
    simp
  rw [ha1, ha2, Bool.and_self]
  have hlt : Real.sqrt s.A1 < 1 ↔ s.A1 < 1 := by
    rw [Real.sqrt_lt' one_pos]
    simp
  simp only [hlt]

/-- C5: `poles` returns exactly two complex numbers `p1, p2`; each is a root of
`z^2 + a1*z + a2`, their sum is `-a1`, their product is `a2`, and
`z^2 + a1*z + a2 = (z - p1)*(z - p2)` for every `z`; no condition on the
discriminant. -/
theorem poles_are_roots (s : BiQuad ℝ) :
    ∃ p1 p2 : ℂ, s.poles = [p1, p2] ∧
      p1 ^ 2 + (s.A0 : ℂ) * p1 + (s.A1 : ℂ) = 0 ∧
      p2 ^ 2 + (s.A0 : ℂ) * p2 + (s.A1 : ℂ) = 0 ∧
      p1 + p2 = -(s.A0 : ℂ) ∧ p1 * p2 = (s.A1 : ℂ) ∧
      ∀ z : ℂ, z ^ 2 + (s.A0 : ℂ) * z + (s.A1 : ℂ) = (z - p1) * (z - p2) := by
  obtain ⟨d, hd, hp⟩ := s.poles_form
  refine ⟨_, _, hp, ?_, ?_, ?_, ?_, ?_⟩
  · linear_combination (1 / 4 : ℂ) * hd
  · linear_combination (1 / 4 : ℂ) * hd
  · ring
  · linear_combination (-1 / 4 : ℂ) * hd
  · intro z
    linear_combination (1 / 4 : ℂ) * hd

/-- C6: when `b0 ≠ 0`, `zeros` returns exactly two complex numbers `q1, q2`;
each is a root of `b0*z^2 + b1*z + b2`, their sum is `-b1/b0` and their
product is `b2/b0`. -/
theorem zeros_are_roots (s : BiQuad ℝ) (hb0 : s.B0 ≠ 0) :
    ∃ q1 q2 : ℂ, s.zeros = [q1, q2] ∧
      (s.B0 : ℂ) * q1 ^ 2 + (s.B1 : ℂ) * q1 + (s.B2 : ℂ) = 0 ∧
      (s.B0 : ℂ) * q2 ^ 2 + (s.B1 : ℂ) * q2 + (s.B2 : ℂ) = 0 ∧
      q1 + q2 = -(s.B1 : ℂ) / (s.B0 : ℂ) ∧ q1 * q2 = (s.B2 : ℂ) / (s.B0 : ℂ) := by
  obtain ⟨d, hd, hq⟩ := s.zeros_form
  have hc : (s.B0 : ℂ) ≠ 0 := Complex.ofReal_ne_zero.mpr hb0
  have hu : (s.B0 : ℂ) * (s.B0 : ℂ)⁻¹ = 1 := mul_inv_cancel₀ hc
  refine ⟨_, _, hq, ?_, ?_, ?_, ?_⟩
  · linear_combination
      ((1 / 4 : ℂ) * (-(s.B1 : ℂ) + d) ^ 2 * (s.B0 : ℂ)⁻¹ - (s.B2 : ℂ)) * hu
        + ((s.B0 : ℂ)⁻¹ / 4) * hd
  · linear_combination
      ((1 / 4 : ℂ) * (-(s.B1 : ℂ) - d) ^ 2 * (s.B0 : ℂ)⁻¹ - (s.B2 : ℂ)) * hu
        + ((s.B0 : ℂ)⁻¹ / 4) * hd
  · ring
  · linear_combination
      (-((s.B0 : ℂ)⁻¹ ^ 2) / 4) * hd + ((s.B2 : ℂ) * (s.B0 : ℂ)⁻¹) * hu

/-- Witness for C6: the stage with `b0 = 1`, `b1 = -3`, `b2 = 2`. -/
theorem zeros_are_roots_witness :
    (1 : ℝ) ≠ 0 ∧
    ∃ q1 q2 : ℂ, (⟨1, -3, 2, 0, 0, 0, 0, true⟩ : BiQuad ℝ).zeros = [q1, q2] ∧
      ((1 : ℝ) : ℂ) * q1 ^ 2 + ((-3 : ℝ) : ℂ) * q1 + ((2 : ℝ) : ℂ) = 0 ∧
      ((1 : ℝ) : ℂ) * q2 ^ 2 + ((-3 : ℝ) : ℂ) * q2 + ((2 : ℝ) : ℂ) = 0 ∧
      q1 + q2 = -((-3 : ℝ) : ℂ) / ((1 : ℝ) : ℂ) ∧
      q1 * q2 = ((2 : ℝ) : ℂ) / ((1 : ℝ) : ℂ) :=
  ⟨one_ne_zero, zeros_are_roots ⟨1, -3, 2, 0, 0, 0, 0, true⟩ one_ne_zero⟩

/-- C7: `stable` is true exactly when both values returned by `poles` have
modulus strictly below 1; a stage with `a1 = 0`, `a2 = 1.5` is not stable and
a stage with `a1 = 0`, `a2 = 0.5` is stable. -/
theorem stable_iff_poles_inside_unit_circle :
    (∀ s : BiQuad ℝ, ∃ p1 p2 : ℂ, s.poles = [p1, p2] ∧
      (s.stable = true ↔ Complex.abs p1 < 1 ∧ Complex.abs p2 < 1)) ∧
    (∀ (b0 b1 b2 w0 w1 : ℝ) (r : Bool),
      (⟨b0, b1, b2, 0, 1.5, w0, w1, r⟩ : BiQuad ℝ).stable = false) ∧
    (∀ (b0 b1 b2 w0 w1 : ℝ) (r : Bool),
      (⟨b0, b1, b2, 0, 0.5, w0, w1, r⟩ : BiQuad ℝ).stable = true) := by
  refine ⟨fun s => ⟨_, _, s.poles_eq, ?_⟩, ?_, ?_⟩
  · rw [s.stable_eq _ _ s.poles_eq]
    simp
  · intro b0 b1 b2 w0 w1 r
    rw [BiQuad.stable_of_A0_zero _ rfl (by norm_num)]
    norm_num
  · intro b0 b1 b2 w0 w1 r
    rw [BiQuad.stable_of_A0_zero _ rfl (by norm_num)]
    norm_num

/-! ## Chains -/

theorem BiQuadChain.stepLoop_not_mem (ps : List ℕ) (mem : Store α) (x : α) (q : ℕ)
    (hq : q ∉ ps) : (BiQuadChain.stepLoop ps mem x).2 q = mem q := by
  induction ps generalizing mem x with
  | nil => rfl
  | cons p ps ih =>
    rw [List.mem_cons, not_or] at hq
    simp only [BiQuadChain.stepLoop]
    rw [ih _ _ hq.2, Function.update_noteq hq.1]

theorem stagesAt_update {β : Type} (mem : Store β) (ps : List ℕ) (p : ℕ) (v : BiQuad β)
    (hp : p ∉ ps) : stagesAt (Function.update mem p v) ps = stagesAt mem ps := by
  unfold stagesAt
  apply List.map_congr_left
  intro q hq
  have hne : q ≠ p := fun h => hp (h ▸ hq)
  exact Function.update_noteq hne v mem

theorem BiQuadChain.stepLoop_out (ps : List ℕ) (mem : Store α) (x : α)
    (hd : ps.Nodup) :
    (BiQuadChain.stepLoop ps mem x).1 = cascade (stagesAt mem ps) x := by
  induction ps generalizing mem x with
  | nil => rfl
  | cons p ps ih =>
    rw [List.nodup_cons] at hd
    simp only [BiQuadChain.stepLoop]
    rw [ih _ _ hd.2, stagesAt_update _ _ _ _ hd.1]
    rfl

theorem BiQuadChain.stepLoop_stage (ps : List ℕ) (mem : Store α) (x : α)
    (hd : ps.Nodup) (i : ℕ) (hi : i < ps.length) :
    (BiQuadChain.stepLoop ps mem x).2 (ps.get ⟨i, hi⟩) =
      ((mem (ps.get ⟨i, hi⟩)).step (cascade (stagesAt mem (ps.take i)) x)).2 := by
  induction ps generalizing mem x i with
  | nil => exact absurd hi (Nat.not_lt_zero _)
  | cons p ps ih =>
    rw [List.nodup_cons] at hd
    cases i with
    | zero =>
      change (BiQuadChain.stepLoop ps _ _).2 p = ((mem p).step x).2
      rw [BiQuadChain.stepLoop_not_mem _ _ _ _ hd.1, Function.update_same]
    | succ i =>
      have hi2 : i < ps.length := Nat.lt_of_succ_lt_succ hi
      have hmem : ps.get ⟨i, hi2⟩ ∈ ps := List.get_mem ps i hi2
      have hne : ps.get ⟨i, hi2⟩ ≠ p := fun h => hd.1 (h ▸ hmem)
      have hnt : p ∉ ps.take i := fun h => hd.1 (List.mem_of_mem_take h)
      change (BiQuadChain.stepLoop ps _ _).2 (ps.get ⟨i, hi2⟩) =
        ((mem (ps.get ⟨i, hi2⟩)).step
          (cascade (stagesAt mem (ps.take i)) ((mem p).step x).1)).2
      rw [ih _ _ hd.2 i hi2, Function.update_noteq hne, stagesAt_update _ _ _ _ hnt]

theorem BiQuadChain.poles_zerosLoop_eq (zeros : Bool) (mem : Store ℝ) (ps : List ℕ)
    (chain : List ℂ) :
    BiQuadChain.poles_zerosLoop zeros mem ps chain =
      chain ++ (ps.map (fun p => if zeros then (mem p).zeros else (mem p).poles)).flatten := by
  induction ps generalizing chain with
  | nil => simp [BiQuadChain.poles_zerosLoop]
  | cons p ps ih =>
    simp only [BiQuadChain.poles_zerosLoop, List.map_cons, List.flatten_cons]
    rw [ih, List.append_assoc]

theorem BiQuad.poles_length (s : BiQuad ℝ) : s.poles.length = 2 := rfl

theorem BiQuad.zeros_length (s : BiQuad ℝ) : s.zeros.length = 2 := rfl

theorem flatten_length_two {β γ : Type} (f : β → List γ) (h : ∀ b, (f b).length = 2)
    (l : List β) : (l.map f).flatten.length = 2 * l.length := by
  induction l with
  | nil => rfl
  | cons b l ih =>
    simp only [List.map_cons, List.flatten_cons, List.length_append, List.length_cons, ih, h]
    ring

/-- C8: for a chain whose pointers are pairwise distinct, `BiQuadChain::step`
returns the nested `sn.step(... s1.step(x) ...)`; the stage at position `i` ends
as its own `step` leaves it on the sample it received (the output of the first
`i` stages), and stages outside the chain are untouched.  The empty chain
returns `x`.  For `A * B` with `A = (b0=2, rest 0)`, `B = (b0=3, rest 0)`,
`step 1` returns `6`. -/
theorem chain_step_threads_in_append_order :
    (∀ (c : BiQuadChain) (mem : Store ℝ) (x : ℝ), c.biquads.Nodup →
      (c.step mem x).1 = cascade (stagesAt mem c.biquads) x ∧
      (∀ (i : ℕ) (hi : i < c.biquads.length),
        (c.step mem x).2 (c.biquads.get ⟨i, hi⟩) =
          ((mem (c.biquads.get ⟨i, hi⟩)).step
            (cascade (stagesAt mem (c.biquads.take i)) x)).2) ∧
      (∀ q : ℕ, q ∉ c.biquads → (c.step mem x).2 q = mem q)) ∧
    (∀ ps : List ℕ, (ps.foldl BiQuadChain.add BiQuadChain.empty).biquads = ps) ∧
    (∀ (mem : Store ℝ) (x : ℝ), (BiQuadChain.empty.step mem x).1 = x) ∧
    (∀ rawA rawB : BiQuad ℝ,
      ((BiQuadChain.compose 0 1).step
        (twoStages (BiQuad.new5 rawA 2 0 0 0 0) (BiQuad.new5 rawB 3 0 0 0 0)) 1).1 = 6) := by
  refine ⟨fun c mem x hd => ⟨?_, ?_, ?_⟩, ?_, fun _ _ => rfl, ?_⟩
  · exact BiQuadChain.stepLoop_out _ _ _ hd
  · exact fun i hi => BiQuadChain.stepLoop_stage _ _ _ hd i hi
  · exact fun q hq => BiQuadChain.stepLoop_not_mem _ _ _ _ hq
  · intro ps
    have h : ∀ (l : List ℕ) (c : BiQuadChain),
        (l.foldl BiQuadChain.add c).biquads = c.biquads ++ l := by
      intro l
      induction l with
      | nil => intro c; simp
      | cons p l ih => intro c; rw [List.foldl_cons, ih]; simp [BiQuadChain.add]
    simpa [BiQuadChain.empty] using h ps BiQuadChain.empty
  · intro rawA rawB
    rw [BiQuad.new5_eq, BiQuad.new5_eq]
    norm_num [BiQuadChain.compose, BiQuadChain.add, BiQuadChain.empty, BiQuadChain.step,
      BiQuadChain.stepLoop, BiQuad.step, twoStages, Function.update]

/-- Witness for C8: the chain `[0, 1]` over the store of the `A * B` example. -/
theorem chain_step_threads_witness :
    ([0, 1] : List ℕ).Nodup ∧
    ((⟨[0, 1]⟩ : BiQuadChain).step
        (twoStages (⟨2, 0, 0, 0, 0, 0, 0, true⟩ : BiQuad ℝ) ⟨3, 0, 0, 0, 0, 0, 0, true⟩) 1).1 =
      cascade (stagesAt
        (twoStages (⟨2, 0, 0, 0, 0, 0, 0, true⟩ : BiQuad ℝ) ⟨3, 0, 0, 0, 0, 0, 0, true⟩)
        [0, 1]) 1 :=
  ⟨by decide,
    (chain_step_threads_in_append_order.1 ⟨[0, 1]⟩
      (twoStages (⟨2, 0, 0, 0, 0, 0, 0, true⟩ : BiQuad ℝ) ⟨3, 0, 0, 0, 0, 0, 0, true⟩) 1
      (by decide)).1⟩

/-- C9 (as stated, refuted): `A = (b0=1, b1=1, rest 0)` and
`B = (b0=1, a1=1, rest 0)` are both not pure scalar gains, both start from
zero state, and the chains `A`-then-`B` and `B`-then-`A` return the same
sample for the input `1` (and the same three samples for the inputs `1, 0, 0`). -/
theorem reversed_chain_same_result_example :
    ¬ BiQuad.isPureGain (⟨1, 1, 0, 0, 0, 0, 0, true⟩ : BiQuad ℝ) ∧
    ¬ BiQuad.isPureGain (⟨1, 0, 0, 1, 0, 0, 0, true⟩ : BiQuad ℝ) ∧
    ((BiQuadChain.compose 0 1).step
      (twoStages (⟨1, 1, 0, 0, 0, 0, 0, true⟩ : BiQuad ℝ) ⟨1, 0, 0, 1, 0, 0, 0, true⟩) 1).1 =
    ((BiQuadChain.compose 1 0).step
      (twoStages (⟨1, 1, 0, 0, 0, 0, 0, true⟩ : BiQuad ℝ) ⟨1, 0, 0, 1, 0, 0, 0, true⟩) 1).1 ∧
    ((BiQuadChain.compose 0 1).run
      (twoStages (⟨1, 1, 0, 0, 0, 0, 0, true⟩ : BiQuad ℝ) ⟨1, 0, 0, 1, 0, 0, 0, true⟩)
      [1, 0, 0]).1 = [1, 0, 0] ∧
    ((BiQuadChain.compose 1 0).run
      (twoStages (⟨1, 1, 0, 0, 0, 0, 0, true⟩ : BiQuad ℝ) ⟨1, 0, 0, 1, 0, 0, 0, true⟩)
      [1, 0, 0]).1 = [1, 0, 0] := by
  refine ⟨?_, ?_, ?_, ?_, ?_⟩
  · norm_num [BiQuad.isPureGain]
  · norm_num [BiQuad.isPureGain]
  · norm_num [BiQuadChain.compose, BiQuadChain.add, BiQuadChain.empty, BiQuadChain.step,
      BiQuadChain.stepLoop, BiQuad.step, twoStages, Function.update]
  · norm_num [BiQuadChain.run, BiQuadChain.compose, BiQuadChain.add, BiQuadChain.empty,
      BiQuadChain.step, BiQuadChain.stepLoop, BiQuad.step, twoStages, Function.update]
  · norm_num [BiQuadChain.run, BiQuadChain.compose, BiQuadChain.add, BiQuadChain.empty,
      BiQuadChain.step, BiQuadChain.stepLoop, BiQuad.step, twoStages, Function.update]

/-- C9 (amended): for any two stages `A`, `B` (pure gains or not), both starting
from zero state, `BiQuadChain::step x` on the chain `A`-then-`B` and on the chain
`B`-then-`A` return the same sample, `bA0 * bB0 * x`. -/
theorem reversed_chain_first_step_agrees
    (a0 a1 a2 a3 a4 b0 b1 b2 b3 b4 x : ℝ) (ra rb : Bool) :
    ((BiQuadChain.compose 0 1).step
      (twoStages (⟨a0, a1, a2, a3, a4, 0, 0, ra⟩ : BiQuad ℝ) ⟨b0, b1, b2, b3, b4, 0, 0, rb⟩) x).1 =
    ((BiQuadChain.compose 1 0).step
      (twoStages (⟨a0, a1, a2, a3, a4, 0, 0, ra⟩ : BiQuad ℝ) ⟨b0, b1, b2, b3, b4, 0, 0, rb⟩) x).1 ∧
    ((BiQuadChain.compose 0 1).step
      (twoStages (⟨a0, a1, a2, a3, a4, 0, 0, ra⟩ : BiQuad ℝ) ⟨b0, b1, b2, b3, b4, 0, 0, rb⟩) x).1 =
      a0 * b0 * x := by
  constructor
  · simp [BiQuadChain.compose, BiQuadChain.add, BiQuadChain.empty, BiQuadChain.step,
      BiQuadChain.stepLoop, BiQuad.step, twoStages, Function.update]
    ring
  · simp [BiQuadChain.compose, BiQuadChain.add, BiQuadChain.empty, BiQuadChain.step,
      BiQuadChain.stepLoop, BiQuad.step, twoStages, Function.update]
    ring

/-- C10: `BiQuadChain::poles` is the concatenation, in chain order, of the
`poles` of the stages the chain points to, `BiQuadChain::zeros` likewise of
their `zeros`; each has length twice the number of stages (0 for the empty
chain). -/
theorem chain_poles_zeros_concatenate (c : BiQuadChain) (mem : Store ℝ) :
    c.poles mem = ((stagesAt mem c.biquads).map BiQuad.poles).flatten ∧
    c.zeros mem = ((stagesAt mem c.biquads).map BiQuad.zeros).flatten ∧
    (c.poles mem).length = 2 * c.biquads.length ∧
    (c.zeros mem).length = 2 * c.biquads.length ∧
    (BiQuadChain.empty.poles mem).length = 0 ∧
    (BiQuadChain.empty.zeros mem).length = 0 := by
  have hp : c.poles mem = ((stagesAt mem c.biquads).map BiQuad.poles).flatten := by
    simp [BiQuadChain.poles, BiQuadChain.poles_zeros, BiQuadChain.poles_zerosLoop_eq,
      stagesAt, List.map_map, Function.comp_def]
  have hz : c.zeros mem = ((stagesAt mem c.biquads).map BiQuad.zeros).flatten := by
    simp [BiQuadChain.zeros, BiQuadChain.poles_zeros, BiQuadChain.poles_zerosLoop_eq,
      stagesAt, List.map_map, Function.comp_def]
  refine ⟨hp, hz, ?_, ?_, rfl, rfl⟩
  · rw [hp, flatten_length_two _ BiQuad.poles_length]
    simp [stagesAt]
  · rw [hz, flatten_length_two _ BiQuad.zeros_length]
    simp [stagesAt]

/-! ## Chain stability -/

theorem foldl_and_eq_all {β : Type} (f : β → Bool) (l : List β) (b : Bool) :
    l.foldl (fun stable p => stable && f p) b = (b && l.all f) := by
  induction l generalizing b with
  | nil => simp
  | cons p l ih => simp [List.foldl_cons, ih, Bool.and_assoc]

theorem BiQuadChain.stable_eq_all (c : BiQuadChain) (mem : Store ℝ) :
    c.stable mem = c.biquads.all (fun p => (mem p).stable) := by
  unfold BiQuadChain.stable
  rw [foldl_and_eq_all (fun p => (mem p).stable)]
  simp

/-- C11: `BiQuadChain::stable` is true exactly when `BiQuad::stable` is true
for every stage the chain points to; the empty chain is stable, and a chain
with an unstable stage at any position is not stable. -/
theorem chain_stable_iff_every_stage_stable (c : BiQuadChain) (mem : Store ℝ) :
    (c.stable mem = true ↔ ∀ p ∈ c.biquads, (mem p).stable = true) ∧
    c.stable mem = (stagesAt mem c.biquads).all BiQuad.stable ∧
    BiQuadChain.empty.stable mem = true ∧
    (∀ (ps qs : List ℕ) (p : ℕ), (mem p).stable = false →
      (⟨ps ++ p :: qs⟩ : BiQuadChain).stable mem = false) := by
  refine ⟨?_, ?_, rfl, ?_⟩
  · rw [BiQuadChain.stable_eq_all]
    simp
  · rw [BiQuadChain.stable_eq_all]
    unfold stagesAt
    induction c.biquads with
    | nil => rfl
    | cons p ps ih => simp only [List.all_cons, List.map_cons, ih]
  · intro ps qs p hp
    rw [BiQuadChain.stable_eq_all]
    simp [hp]

/-! ## Coefficient design: unity and the failure path -/

/-- C13: for every stage and all `Fc`, `Q`, `peakGainDB`,
`setCoefficients bq_type_unity` returns `true` and leaves the stage with
coefficients `(b0,b1,b2,a1,a2) = (1,0,0,0,0)`. -/
theorem setCoefficients_unity (Fc Q peakGainDB : ℝ) (bq : BiQuad ℝ) :
    (setCoefficients .bq_type_unity Fc Q peakGainDB bq).1 = true ∧
    (setCoefficients .bq_type_unity Fc Q peakGainDB bq).2.B0 = 1 ∧
    (setCoefficients .bq_type_unity Fc Q peakGainDB bq).2.B1 = 0 ∧
    (setCoefficients .bq_type_unity Fc Q peakGainDB bq).2.B2 = 0 ∧
    (setCoefficients .bq_type_unity Fc Q peakGainDB bq).2.A0 = 0 ∧
    (setCoefficients .bq_type_unity Fc Q peakGainDB bq).2.A1 = 0 := by
  cases h : bq.resetStateOnGainChange <;> norm_num [setCoefficients, BiQuad.set, h]

/-- C14: `setCoefficients` returns `false` exactly when the type is none of the
eight recognised values, and then the stage handed in is returned as it was
(coefficients, state and reset flag), whatever `Fc`, `Q`, `peakGainDB` are. -/
theorem setCoefficients_false_iff_unrecognized (type : bq_type_t) (Fc Q peakGainDB : ℝ)
    (bq : BiQuad ℝ) :
    ((setCoefficients type Fc Q peakGainDB bq).1 = false ↔ ¬ type.isRecognized) ∧
    ((setCoefficients type Fc Q peakGainDB bq).1 = false →
      (setCoefficients type Fc Q peakGainDB bq).2 = bq) ∧
    (∀ v : ℤ, setCoefficients (.unrecognized v) Fc Q peakGainDB bq = (false, bq)) := by
  refine ⟨?_, ?_, fun _ => rfl⟩
  · cases type <;> simp only [setCoefficients, bq_type_t.isRecognized] <;>
      first
        | (split_ifs <;> simp)
        | simp
  · cases type <;> simp only [setCoefficients] <;>
      first
        | (split_ifs <;> simp)
        | simp

/-! ## Coefficient design: the four plain types -/

/-- The four plain types install, with `D = 1 + K/Q + K^2`, the feedback pair
`a1 = 2 (K^2 - 1) / D`, `a2 = (1 - K/Q + K^2) / D`, and a type-dependent
numerator. -/
theorem setCoefficients_plain (t : bq_type_t) (Fc Q G : ℝ) (bq : BiQuad ℝ)
    (ht : t = .bq_type_lowpass ∨ t = .bq_type_highpass ∨ t = .bq_type_bandpass ∨
      t = .bq_type_notch) :
    (setCoefficients t Fc Q G bq).1 = true ∧
    (setCoefficients t Fc Q G bq).2.A0 =
      2 * (Real.tan (Real.pi * Fc) * Real.tan (Real.pi * Fc) - 1) *
        (1 / (1 + Real.tan (Real.pi * Fc) / Q
          + Real.tan (Real.pi * Fc) * Real.tan (Real.pi * Fc))) ∧
    (setCoefficients t Fc Q G bq).2.A1 =
      (1 - Real.tan (Real.pi * Fc) / Q + Real.tan (Real.pi * Fc) * Real.tan (Real.pi * Fc)) *
        (1 / (1 + Real.tan (Real.pi * Fc) / Q
          + Real.tan (Real.pi * Fc) * Real.tan (Real.pi * Fc))) := by
  rcases ht with h | h | h | h <;> subst h <;>
    cases hr : bq.resetStateOnGainChange <;> simp [setCoefficients, BiQuad.set, hr]

/-- The feed-forward triples installed by the four plain types. -/
theorem setCoefficients_plain_B (Fc Q G K n : ℝ) (bq : BiQuad ℝ)
    (hK : K = Real.tan (Real.pi * Fc)) (hn : n = 1 / (1 + K / Q + K * K)) :
    ((setCoefficients .bq_type_lowpass Fc Q G bq).2.B0 = K * K * n ∧
      (setCoefficients .bq_type_lowpass Fc Q G bq).2.B1 = 2 * (K * K * n) ∧
      (setCoefficients .bq_type_lowpass Fc Q G bq).2.B2 = K * K * n) ∧
    ((setCoefficients .bq_type_highpass Fc Q G bq).2.B0 = 1 * n ∧
      (setCoefficients .bq_type_highpass Fc Q G bq).2.B1 = -2 * (1 * n) ∧
      (setCoefficients .bq_type_highpass Fc Q G bq).2.B2 = 1 * n) ∧
    ((setCoefficients .bq_type_bandpass Fc Q G bq).2.B0 = K / Q * n ∧
      (setCoefficients .bq_type_bandpass Fc Q G bq).2.B1 = 0 ∧
      (setCoefficients .bq_type_bandpass Fc Q G bq).2.B2 = -(K / Q * n)) ∧
    ((setCoefficients .bq_type_notch Fc Q G bq).2.B0 = (1 + K * K) * n ∧
      (setCoefficients .bq_type_notch Fc Q G bq).2.B1 = 2 * (K * K - 1) * n ∧
      (setCoefficients .bq_type_notch Fc Q G bq).2.B2 = (1 + K * K) * n) := by
  subst hK hn
  cases hr : bq.resetStateOnGainChange <;> simp [setCoefficients, BiQuad.set, hr]

/-- The algebra of the bilinear substitution: with `s (K (z+1)) = z - 1` and
`n (1 + K/Q + K^2) = 1`, the common digital denominator is
`K^2 (z+1)^2 n (s^2 + s/Q + 1)`. -/
theorem bilinear_core (K Q z s n : ℂ) (hsc : s * (K * (z + 1)) = z - 1)
    (hn : n * (1 + K / Q + K * K) = 1) :
    K * K * (z + 1) ^ 2 * n * (s ^ 2 + s / Q + 1) =
      z ^ 2 + 2 * (K * K - 1) * n * z + (1 - K / Q + K * K) * n := by
  linear_combination
    (n * (s * (K * (z + 1)) + (z - 1) + K * (z + 1) / Q)) * hsc + z ^ 2 * hn

/-- C12: for `lowpass`, `highpass`, `bandpass`, `notch`, with `K = tan(π Fc)`,
`K ≠ 0`, `Q ≠ 0`, `1 + K/Q + K^2 ≠ 0`, `setCoefficients` returns `true` and the
installed stage has, at every complex `z ≠ -1` where both denominators are
non-zero, transfer function `N(s) / (s^2 + s/Q + 1)` with
`s = (z - 1) / (K (z + 1))` and `N` the prototype numerator of the type. -/
theorem setCoefficients_bilinear_transform (t : bq_type_t) (Fc Q peakGainDB K : ℝ)
    (bq : BiQuad ℝ) (z s : ℂ)
    (ht : t = .bq_type_lowpass ∨ t = .bq_type_highpass ∨ t = .bq_type_bandpass ∨
      t = .bq_type_notch)
    (hK : K = Real.tan (Real.pi * Fc)) (hK0 : K ≠ 0) (_hQ : Q ≠ 0)
    (hD : 1 + K / Q + K ^ 2 ≠ 0) (hz : z ≠ -1)
    (hs : s = (z - 1) / ((K : ℂ) * (z + 1)))
    (hden : z ^ 2 + ((setCoefficients t Fc Q peakGainDB bq).2.A0 : ℂ) * z
      + ((setCoefficients t Fc Q peakGainDB bq).2.A1 : ℂ) ≠ 0)
    (hproto : s ^ 2 + s / (Q : ℂ) + 1 ≠ 0) :
    (setCoefficients t Fc Q peakGainDB bq).1 = true ∧
    (setCoefficients t Fc Q peakGainDB bq).2.transfer z =
      prototypeNumerator t Q s / (s ^ 2 + s / (Q : ℂ) + 1) := by
  obtain ⟨h1, hA0, hA1⟩ := setCoefficients_plain t Fc Q peakGainDB bq ht
  obtain ⟨hlp, hhp, hbp, hno⟩ :=
    setCoefficients_plain_B Fc Q peakGainDB K (1 / (1 + K / Q + K * K)) bq hK rfl
  refine ⟨h1, ?_⟩
  have hKc : (K : ℂ) ≠ 0 := Complex.ofReal_ne_zero.mpr hK0
  have hz1 : z + 1 ≠ 0 := fun h => hz (eq_neg_of_add_eq_zero_left h)
  have hsc : s * ((K : ℂ) * (z + 1)) = z - 1 := by
    rw [hs]
    exact div_mul_cancel₀ _ (mul_ne_zero hKc hz1)
  have hDr : 1 + K / Q + K * K ≠ 0 := by
    rw [← pow_two]
    exact hD
  obtain ⟨n, hn⟩ : ∃ n : ℝ, n = 1 / (1 + K / Q + K * K) := ⟨_, rfl⟩
  have hnr : n * (1 + K / Q + K * K) = 1 := by
    rw [hn]
    exact one_div_mul_cancel hDr
  have hnc : (n : ℂ) * (1 + (K : ℂ) / (Q : ℂ) + (K : ℂ) * (K : ℂ)) = 1 := by
    have h := congrArg (fun x : ℝ => (x : ℂ)) hnr
    simp only at h
    push_cast at h
    exact h
  have hcore := bilinear_core (K : ℂ) (Q : ℂ) z s (n : ℂ) hsc hnc
  rw [hA0, hA1, ← hK, ← hn] at hden
  unfold BiQuad.transfer
  rw [hA0, hA1, ← hK, ← hn]
  rw [← hn] at hlp hhp hbp hno
  push_cast at hden ⊢
  rw [div_eq_div_iff hden hproto, ← hcore]
  rcases ht with h | h | h | h <;> subst h
  · rw [hlp.1, hlp.2.1, hlp.2.2]
    simp only [prototypeNumerator]
    push_cast
    ring
  · rw [hhp.1, hhp.2.1, hhp.2.2]
    simp only [prototypeNumerator]
    push_cast
    linear_combination
      (-((n : ℂ) * (s * ((K : ℂ) * (z + 1)) + (z - 1)) * (s ^ 2 + s / (Q : ℂ) + 1))) * hsc
  · rw [hbp.1, hbp.2.1, hbp.2.2]
    simp only [prototypeNumerator]
    push_cast
    linear_combination
      (-((n : ℂ) * ((K : ℂ) * (z + 1)) / (Q : ℂ) * (s ^ 2 + s / (Q : ℂ) + 1))) * hsc
  · rw [hno.1, hno.2.1, hno.2.2]
    simp only [prototypeNumerator]
    push_cast
    linear_combination
      (-((n : ℂ) * (s * ((K : ℂ) * (z + 1)) + (z - 1)) * (s ^ 2 + s / (Q : ℂ) + 1))) * hsc

/-- Witness for C12: lowpass at `Fc = 1/4` (so `K = 1`), `Q = 1`, evaluated at
`z = 1` (so `s = 0`). -/
theorem setCoefficients_bilinear_transform_witness :
    (1 : ℝ) = Real.tan (Real.pi * (1 / 4)) ∧
    (setCoefficients .bq_type_lowpass (1 / 4) 1 0 ⟨1, 0, 0, 0, 0, 0, 0, true⟩).1 = true ∧
    (setCoefficients .bq_type_lowpass (1 / 4) 1 0 ⟨1, 0, 0, 0, 0, 0, 0, true⟩).2.transfer 1 =
      prototypeNumerator .bq_type_lowpass 1 0 / ((0 : ℂ) ^ 2 + 0 / ((1 : ℝ) : ℂ) + 1) := by
  have htan : (1 : ℝ) = Real.tan (Real.pi * (1 / 4)) := by
    rw [show Real.pi * (1 / 4) = Real.pi / 4 by ring, Real.tan_pi_div_four]
  refine ⟨htan, setCoefficients_bilinear_transform .bq_type_lowpass (1 / 4) 1 0 1
    ⟨1, 0, 0, 0, 0, 0, 0, true⟩ 1 0 (Or.inl rfl) htan one_ne_zero one_ne_zero
    (by norm_num) (by norm_num) (by norm_num) ?_ (by norm_num)⟩
  obtain ⟨-, hA0, hA1⟩ := setCoefficients_plain .bq_type_lowpass (1 / 4) 1 0
    ⟨1, 0, 0, 0, 0, 0, 0, true⟩ (Or.inl rfl)
  rw [hA0, hA1, ← htan]
  norm_num

/-! ## PID discretisation -/

theorem BiQuad.PIDF_coeffs (bq : BiQuad α) (Kp Ki Kd N Ts : α) :
    (bq.PIDF Kp Ki Kd N Ts).B0 =
      (4 * Kp + 4 * Kd * N + 2 * Ki * Ts + 2 * Kp * N * Ts + Ki * N * Ts * Ts)
        / (2 * (N * Ts + 2)) ∧
    (bq.PIDF Kp Ki Kd N Ts).B1 = (Ki * N * Ts * Ts - 4 * Kp - 4 * Kd * N) / (N * Ts + 2) ∧
    (bq.PIDF Kp Ki Kd N Ts).B2 =
      (4 * Kp + 4 * Kd * N - 2 * Ki * Ts - 2 * Kp * N * Ts + Ki * N * Ts * Ts)
        / (2 * (N * Ts + 2)) ∧
    (bq.PIDF Kp Ki Kd N Ts).A0 = -4 / (N * Ts + 2) ∧
    (bq.PIDF Kp Ki Kd N Ts).A1 = -(N * Ts - 2) / (N * Ts + 2) := by
  cases hr : bq.resetStateOnGainChange <;> simp [BiQuad.PIDF, BiQuad.set, hr]

/-- The algebra behind `PIDF`: with `u (N Ts + 2) = 1` and
`s (Ts (z + 1)) = 2 (z - 1)`, numerator and denominator of the installed stage
are the cleared forms of `Kp + Ki/s + Kd N s/(s + N)`. -/
theorem PIDF_core (Kp Ki Kd N Ts z s u : ℂ) (hu : (N * Ts + 2) * u = 1)
    (hsc : s * (Ts * (z + 1)) = 2 * (z - 1)) (hs0 : s ≠ 0) (hsN : s + N ≠ 0) :
    (Kp + Ki / s + Kd * N * s / (s + N)) * (z ^ 2 + -4 * u * z + -(N * Ts - 2) * u) =
      (4 * Kp + 4 * Kd * N + 2 * Ki * Ts + 2 * Kp * N * Ts + Ki * N * Ts * Ts) * (u / 2) * z ^ 2
      + (Ki * N * Ts * Ts - 4 * Kp - 4 * Kd * N) * u * z
      + (4 * Kp + 4 * Kd * N - 2 * Ki * Ts - 2 * Kp * N * Ts + Ki * N * Ts * Ts) * (u / 2) := by
  have hden : z ^ 2 + -4 * u * z + -(N * Ts - 2) * u
      = u / 2 * s * (Ts * (z + 1)) ^ 2 * (s + N) := by
    linear_combination (-(z ^ 2)) * hu
      - (u / 2 * (((N * Ts + 2) * z + (N * Ts - 2)) + s * (Ts * (z + 1)))) * hsc
  have hnum : (4 * Kp + 4 * Kd * N + 2 * Ki * Ts + 2 * Kp * N * Ts + Ki * N * Ts * Ts)
        * (u / 2) * z ^ 2
      + (Ki * N * Ts * Ts - 4 * Kp - 4 * Kd * N) * u * z
      + (4 * Kp + 4 * Kd * N - 2 * Ki * Ts - 2 * Kp * N * Ts + Ki * N * Ts * Ts) * (u / 2)
      = u / 2 * (Ts * (z + 1)) ^ 2 * (Kp * s * (s + N) + Ki * (s + N) + Kd * N * s ^ 2) := by
    linear_combination
      (-(u / 2 * (Kp * (((N * Ts + 2) * z + (N * Ts - 2)) + s * (Ts * (z + 1)))
        + Ki * (Ts * (z + 1)) + Kd * N * (2 * (z - 1) + s * (Ts * (z + 1)))))) * hsc
  rw [hden, hnum]
  field_simp
  ring

/-- C15: for `N*Ts ≠ -2`, `PIDF` installs `a1 = -4/(N*Ts+2)` and
`a2 = -(N*Ts-2)/(N*Ts+2)`, and at every complex `z ≠ 1`, `z ≠ -1` where the
denominators (`Ts`, `s + N`, `z^2 + a1*z + a2`) are non-zero the transfer
function of the stage is `Kp + Ki/s + Kd*N*s/(s + N)` with
`s = (2/Ts)*(z - 1)/(z + 1)`. -/
theorem PIDF_bilinear_transform (Kp Ki Kd N Ts : ℝ) (bq : BiQuad ℝ) (z s : ℂ)
    (hNT : N * Ts ≠ -2) (hTs : Ts ≠ 0) (hz1 : z ≠ 1) (hzm1 : z ≠ -1)
    (hs : s = (2 / (Ts : ℂ)) * (z - 1) / (z + 1)) (hsN : s + (N : ℂ) ≠ 0)
    (hden : z ^ 2 + ((bq.PIDF Kp Ki Kd N Ts).A0 : ℂ) * z
      + ((bq.PIDF Kp Ki Kd N Ts).A1 : ℂ) ≠ 0) :
    (bq.PIDF Kp Ki Kd N Ts).A0 = -4 / (N * Ts + 2) ∧
    (bq.PIDF Kp Ki Kd N Ts).A1 = -(N * Ts - 2) / (N * Ts + 2) ∧
    (bq.PIDF Kp Ki Kd N Ts).transfer z =
      (Kp : ℂ) + (Ki : ℂ) / s + (Kd : ℂ) * (N : ℂ) * s / (s + (N : ℂ)) := by
  obtain ⟨hB0, hB1, hB2, hA0, hA1⟩ := BiQuad.PIDF_coeffs bq Kp Ki Kd N Ts
  refine ⟨hA0, hA1, ?_⟩
  have hTc : (Ts : ℂ) ≠ 0 := Complex.ofReal_ne_zero.mpr hTs
  have hzp : z + 1 ≠ 0 := fun h => hzm1 (eq_neg_of_add_eq_zero_left h)
  have hzm : z - 1 ≠ 0 := sub_ne_zero.mpr hz1
  have hbd : (N : ℂ) * (Ts : ℂ) + 2 ≠ 0 := by
    have h : N * Ts + 2 ≠ 0 := fun h => hNT (by linarith)
    have h2 := Complex.ofReal_ne_zero.mpr h
    push_cast at h2
    exact h2
  have hsc : s * ((Ts : ℂ) * (z + 1)) = 2 * (z - 1) := by
    rw [hs]
    field_simp
  have hs0 : s ≠ 0 := by
    rw [hs]
    exact div_ne_zero (mul_ne_zero (div_ne_zero two_ne_zero hTc) hzm) hzp
  have hu : ((N : ℂ) * (Ts : ℂ) + 2) * ((N : ℂ) * (Ts : ℂ) + 2)⁻¹ = 1 :=
    mul_inv_cancel₀ hbd
  have hcore := PIDF_core (Kp : ℂ) (Ki : ℂ) (Kd : ℂ) (N : ℂ) (Ts : ℂ) z s
    ((N : ℂ) * (Ts : ℂ) + 2)⁻¹ hu hsc hs0 hsN
  rw [hA0, hA1] at hden
  unfold BiQuad.transfer
  rw [hB0, hB1, hB2, hA0, hA1]
  push_cast at hden ⊢
  rw [div_eq_iff hden]
  have h2 : ∀ x : ℂ, x / (2 * ((N : ℂ) * (Ts : ℂ) + 2))
      = x * (((N : ℂ) * (Ts : ℂ) + 2)⁻¹ / 2) := by
    intro x
    rw [div_eq_mul_inv, mul_inv, div_eq_mul_inv, mul_comm (2 : ℂ)⁻¹]
  simp only [h2]
  linear_combination (-1 : ℂ) * hcore

/-- Witness for C15: `Kp = Ki = Kd = N = 1`, `Ts = 2`, at `z = 2` (so `s = 1/3`). -/
theorem PIDF_bilinear_transform_witness :
    (1 : ℝ) * 2 ≠ -2 ∧
    ((⟨1, 0, 0, 0, 0, 0, 0, true⟩ : BiQuad ℝ).PIDF 1 1 1 1 2).A0 = -4 / (1 * 2 + 2) ∧
    ((⟨1, 0, 0, 0, 0, 0, 0, true⟩ : BiQuad ℝ).PIDF 1 1 1 1 2).A1
      = -(1 * 2 - 2) / (1 * 2 + 2) ∧
    ((⟨1, 0, 0, 0, 0, 0, 0, true⟩ : BiQuad ℝ).PIDF 1 1 1 1 2).transfer 2 =
      ((1 : ℝ) : ℂ) + ((1 : ℝ) : ℂ) / (1 / 3)
        + ((1 : ℝ) : ℂ) * ((1 : ℝ) : ℂ) * (1 / 3) / (1 / 3 + ((1 : ℝ) : ℂ)) := by
  refine ⟨by norm_num, PIDF_bilinear_transform 1 1 1 1 2 ⟨1, 0, 0, 0, 0, 0, 0, true⟩ 2 (1 / 3)
    (by norm_num) (by norm_num) (by norm_num) ?_ (by norm_num) (by norm_num) ?_⟩
  · intro h
    have h2 := congrArg Complex.re h
    norm_num at h2
  · obtain ⟨-, -, -, hA0, hA1⟩ :=
      BiQuad.PIDF_coeffs (⟨1, 0, 0, 0, 0, 0, 0, true⟩ : BiQuad ℝ) 1 1 1 1 2
    rw [hA0, hA1]
    norm_num

/-! ## The stability triangle -/

theorem abs_half_conj_sq (a r : ℝ) :
    Complex.abs ((1 / 2 : ℂ) * (-(a : ℂ) + (r : ℂ) * Complex.I)) ^ 2 = (a ^ 2 + r ^ 2) / 4 ∧
    Complex.abs ((1 / 2 : ℂ) * (-(a : ℂ) - (r : ℂ) * Complex.I)) ^ 2 = (a ^ 2 + r ^ 2) / 4 := by
  constructor
  · rw [Complex.sq_abs, Complex.normSq_apply]
    simp
    ring
  · rw [Complex.sq_abs, Complex.normSq_apply]
    simp
    ring

theorem abs_lt_one_iff_sq (x : ℝ) (hx : 0 ≤ x) : x < 1 ↔ x ^ 2 < 1 := by
  constructor
  · intro h; nlinarith
  · intro h; by_contra hc; push_neg at hc; nlinarith

theorem abs_half_real (a r : ℝ) :
    Complex.abs ((1 / 2 : ℂ) * (-(a : ℂ) + (r : ℂ))) = |(-a + r) / 2| ∧
    Complex.abs ((1 / 2 : ℂ) * (-(a : ℂ) - (r : ℂ))) = |(-a - r) / 2| := by
  constructor
  · rw [← Complex.abs_ofReal]; congr 1; push_cast; ring
  · rw [← Complex.abs_ofReal]; congr 1; push_cast; ring

theorem real_roots_triangle (a1 a2 r : ℝ) (hr : 0 ≤ r) (hrr : r ^ 2 = a1 * a1 - 4 * a2) :
    (|(-a1 + r) / 2| < 1 ∧ |(-a1 - r) / 2| < 1) ↔ (|a2| < 1 ∧ |a1| < 1 + a2) := by
  constructor
  · rintro ⟨h1, h2⟩
    rw [abs_lt] at h1 h2
    obtain ⟨h1a, h1b⟩ := h1
    obtain ⟨h2a, h2b⟩ := h2
    have e1 : 0 < 2 - a1 - r := by linarith
    have e2 : 0 < 2 + a1 - r := by linarith
    have e3 : 0 < 2 - a1 + r := by linarith
    have e4 : 0 < 2 + a1 + r := by linarith
    refine ⟨abs_lt.mpr ⟨?_, ?_⟩, abs_lt.mpr ⟨?_, ?_⟩⟩
    · nlinarith [mul_pos e1 e4, mul_pos e2 e3]
    · nlinarith [mul_pos e1 e2, mul_pos e3 e4]
    · nlinarith [mul_pos e2 e4]
    · nlinarith [mul_pos e1 e3]
  · rintro ⟨h1, h2⟩
    rw [abs_lt] at h1 h2
    obtain ⟨h1a, h1b⟩ := h1
    obtain ⟨h2a, h2b⟩ := h2
    have e1 : r < 2 - a1 := by
      by_contra hc
      push_neg at hc
      nlinarith
    have e2 : r < 2 + a1 := by
      by_contra hc
      push_neg at hc
      nlinarith
    refine ⟨abs_lt.mpr ⟨?_, ?_⟩, abs_lt.mpr ⟨?_, ?_⟩⟩ <;> linarith

theorem complex_roots_triangle (a1 a2 : ℝ) (hD : a1 * a1 - 4 * a2 < 0) :
    a2 < 1 ↔ (|a2| < 1 ∧ |a1| < 1 + a2) := by
  constructor
  · intro h
    have h0 : 0 < a2 := by nlinarith [mul_self_nonneg a1]
    refine ⟨abs_lt.mpr ⟨by linarith, h⟩, abs_lt.mpr ⟨?_, ?_⟩⟩
    · nlinarith [mul_self_nonneg (1 - a2), mul_self_nonneg (a1 + 1 + a2)]
    · nlinarith [mul_self_nonneg (1 - a2), mul_self_nonneg (a1 - 1 - a2)]
  · rintro ⟨h1, _⟩
    exact (abs_lt.mp h1).2

/-- The pole-modulus test of `stable` agrees with the coefficient criterion
`|a2| < 1 ∧ |a1| < 1 + a2`, for either sign of the discriminant. -/
theorem BiQuad.stable_iff_triangle (s : BiQuad ℝ) :
    s.stable = true ↔ (|s.A1| < 1 ∧ |s.A0| < 1 + s.A1) := by
  have hp := s.poles_eq
  rcases le_or_lt 0 (s.A0 * s.A0 - 4 * s.A1) with hD | hD
  · rw [csqrt_ofReal_nonneg hD] at hp
    rw [s.stable_eq _ _ hp, Bool.and_eq_true, decide_eq_true_eq, decide_eq_true_eq,
      (abs_half_real s.A0 _).1, (abs_half_real s.A0 _).2]
    exact real_roots_triangle s.A0 s.A1 _ (Real.sqrt_nonneg _) (Real.sq_sqrt hD)
  · rw [csqrt_ofReal_nonpos hD.le] at hp
    rw [s.stable_eq _ _ hp, Bool.and_eq_true, decide_eq_true_eq, decide_eq_true_eq,
      abs_lt_one_iff_sq _ (Complex.abs.nonneg _), abs_lt_one_iff_sq _ (Complex.abs.nonneg _),
      (abs_half_conj_sq s.A0 _).1, (abs_half_conj_sq s.A0 _).2,
      Real.sq_sqrt (by linarith : 0 ≤ -(s.A0 * s.A0 - 4 * s.A1)), and_self,
      ← complex_roots_triangle s.A0 s.A1 hD]
    constructor <;> intro h <;> linarith

/-- C16: over exact arithmetic `stable` returns `true` exactly when
`|a2| < 1` and `|a1| < 1 + a2` (the stability triangle), whatever the sign of
the discriminant `a1^2 - 4*a2`. -/
theorem stable_iff_stability_triangle (s : BiQuad ℝ) :
    s.stable = true ↔ (|s.A1| < 1 ∧ |s.A0| < 1 + s.A1) :=
  s.stable_iff_triangle

theorem tan_pi_mul_pos (Fc : ℝ) (h0 : 0 < Fc) (h1 : Fc < 1 / 2) :
    0 < Real.tan (Real.pi * Fc) := by
  apply Real.tan_pos_of_pos_of_lt_pi_div_two
  · exact mul_pos Real.pi_pos h0
  · nlinarith [Real.pi_pos]

/-- With `K > 0` and `Q > 0` the feedback pair of the plain types lies strictly
inside the stability triangle. -/
theorem plain_feedback_in_triangle (K Q : ℝ) (hK : 0 < K) (hQ : 0 < Q) :
    |(1 - K / Q + K * K) * (1 / (1 + K / Q + K * K))| < 1 ∧
    |2 * (K * K - 1) * (1 / (1 + K / Q + K * K))|
      < 1 + (1 - K / Q + K * K) * (1 / (1 + K / Q + K * K)) := by
  have hq : 0 < K / Q := div_pos hK hQ
  have hk : 0 < K * K := mul_pos hK hK
  have hD : 0 < 1 + K / Q + K * K := by linarith
  obtain ⟨n, hn⟩ : ∃ n : ℝ, n = 1 / (1 + K / Q + K * K) := ⟨_, rfl⟩
  have hn0 : 0 < n := by
    rw [hn]
    exact one_div_pos.mpr hD
  have hnD : n * (1 + K / Q + K * K) = 1 := by
    rw [hn]
    exact one_div_mul_cancel hD.ne'
  rw [← hn, abs_lt, abs_lt]
  have h1 := mul_pos hn0 hq
  have h2 := mul_pos hn0 hk
  refine ⟨⟨?_, ?_⟩, ⟨?_, ?_⟩⟩ <;> nlinarith

/-- C17: for `lowpass`, `highpass`, `bandpass`, `notch`, every `0 < Fc < 1/2`
and every `Q > 0`, the stage produced by `setCoefficients` is stable. -/
theorem plain_types_are_stable (t : bq_type_t) (Fc Q peakGainDB : ℝ) (bq : BiQuad ℝ)
    (ht : t = .bq_type_lowpass ∨ t = .bq_type_highpass ∨ t = .bq_type_bandpass ∨
      t = .bq_type_notch)
    (hFc0 : 0 < Fc) (hFc1 : Fc < 1 / 2) (hQ : 0 < Q) :
    (setCoefficients t Fc Q peakGainDB bq).2.stable = true := by
  obtain ⟨-, hA0, hA1⟩ := setCoefficients_plain t Fc Q peakGainDB bq ht
  rw [BiQuad.stable_iff_triangle, hA0, hA1]
  exact plain_feedback_in_triangle _ Q (tan_pi_mul_pos Fc hFc0 hFc1) hQ

/-- Witness for C17: bandpass at `Fc = 1/4`, `Q = 1`. -/
theorem plain_types_are_stable_witness :
    (0 : ℝ) < 1 / 4 ∧ (1 / 4 : ℝ) < 1 / 2 ∧ (0 : ℝ) < 1 ∧
    (setCoefficients .bq_type_bandpass (1 / 4) 1 0 ⟨1, 0, 0, 0, 0, 0, 0, true⟩).2.stable = true :=
  ⟨by norm_num, by norm_num, one_pos,
    plain_types_are_stable .bq_type_bandpass (1 / 4) 1 0 ⟨1, 0, 0, 0, 0, 0, 0, true⟩
      (Or.inr (Or.inr (Or.inl rfl))) (by norm_num) (by norm_num) one_pos⟩

/-! ## Peak filter: boost and cut -/

theorem setCoefficients_peak_boost (Fc Q G K V : ℝ) (bq : BiQuad ℝ)
    (hK : K = Real.tan (Real.pi * Fc)) (hV : V = (10 : ℝ) ^ (|G| / 20)) (hG : 0 ≤ G) :
    (setCoefficients .bq_type_peak Fc Q G bq).2.B0
      = (1 + V / Q * K + K * K) * (1 / (1 + 1 / Q * K + K * K)) ∧
    (setCoefficients .bq_type_peak Fc Q G bq).2.B1
      = 2 * (K * K - 1) * (1 / (1 + 1 / Q * K + K * K)) ∧
    (setCoefficients .bq_type_peak Fc Q G bq).2.B2
      = (1 - V / Q * K + K * K) * (1 / (1 + 1 / Q * K + K * K)) ∧
    (setCoefficients .bq_type_peak Fc Q G bq).2.A0
      = 2 * (K * K - 1) * (1 / (1 + 1 / Q * K + K * K)) ∧
    (setCoefficients .bq_type_peak Fc Q G bq).2.A1
      = (1 - 1 / Q * K + K * K) * (1 / (1 + 1 / Q * K + K * K)) := by
  subst hK hV
  cases hr : bq.resetStateOnGainChange <;>
    simp only [setCoefficients, BiQuad.set, hr, ge_iff_le, hG, if_true, if_false,
      Bool.false_eq_true, and_self]

theorem setCoefficients_peak_cut (Fc Q G K V : ℝ) (bq : BiQuad ℝ)
    (hK : K = Real.tan (Real.pi * Fc)) (hV : V = (10 : ℝ) ^ (|G| / 20)) (hG : G < 0) :
    (setCoefficients .bq_type_peak Fc Q G bq).2.B0
      = (1 + 1 / Q * K + K * K) * (1 / (1 + V / Q * K + K * K)) ∧
    (setCoefficients .bq_type_peak Fc Q G bq).2.B1
      = 2 * (K * K - 1) * (1 / (1 + V / Q * K + K * K)) ∧
    (setCoefficients .bq_type_peak Fc Q G bq).2.B2
      = (1 - 1 / Q * K + K * K) * (1 / (1 + V / Q * K + K * K)) ∧
    (setCoefficients .bq_type_peak Fc Q G bq).2.A0
      = 2 * (K * K - 1) * (1 / (1 + V / Q * K + K * K)) ∧
    (setCoefficients .bq_type_peak Fc Q G bq).2.A1
      = (1 - V / Q * K + K * K) * (1 / (1 + V / Q * K + K * K)) := by
  subst hK hV
  have hG2 : ¬ (0 ≤ G) := not_le.mpr hG
  cases hr : bq.resetStateOnGainChange <;>
    simp only [setCoefficients, BiQuad.set, hr, ge_iff_le, hG2, if_true, if_false,
      Bool.false_eq_true, and_self]

/-- Two stages whose coefficients are related as in the peak boost/cut pair
have reciprocal transfer functions. -/
theorem transfer_reciprocal (S T : BiQuad ℝ) (e0 : S.B0 * T.B0 = 1)
    (e1 : T.B1 = S.A0 * T.B0) (e2 : T.B2 = S.A1 * T.B0)
    (e3 : T.A0 = S.B1 * T.B0) (e4 : T.A1 = S.B2 * T.B0) (z : ℂ) :
    T.transfer z = (S.transfer z)⁻¹ := by
  have hc0 : (T.B0 : ℂ) ≠ 0 := by
    apply Complex.ofReal_ne_zero.mpr
    intro h
    rw [h, mul_zero] at e0
    exact zero_ne_one e0
  have e0c : (S.B0 : ℂ) * (T.B0 : ℂ) = 1 := by
    rw [← Complex.ofReal_mul, e0, Complex.ofReal_one]
  unfold BiQuad.transfer
  rw [e1, e2, e3, e4, inv_div]
  push_cast
  have hnum : (T.B0 : ℂ) * z ^ 2 + (S.A0 : ℂ) * (T.B0 : ℂ) * z + (S.A1 : ℂ) * (T.B0 : ℂ)
      = (T.B0 : ℂ) * (z ^ 2 + (S.A0 : ℂ) * z + (S.A1 : ℂ)) := by
    ring
  have hden : z ^ 2 + (S.B1 : ℂ) * (T.B0 : ℂ) * z + (S.B2 : ℂ) * (T.B0 : ℂ)
      = (T.B0 : ℂ) * ((S.B0 : ℂ) * z ^ 2 + (S.B1 : ℂ) * z + (S.B2 : ℂ)) := by
    linear_combination (-(z ^ 2)) * e0c
  rw [hnum, hden, mul_div_mul_left _ _ hc0]

/-- C18: with `K = tan(π Fc)`, `V = 10^(G/20)`, `Q ≠ 0`, `G > 0` and both
normalisation denominators non-zero, the peak filter designed for `-G` is the
reciprocal of the one designed for `+G`: `b0*b0' = 1`, `b1' = a1*b0'`,
`b2' = a2*b0'`, `a1' = b1*b0'`, `a2' = b2*b0'`, and the two transfer functions
are inverse to each other at every `z`. -/
theorem peak_cut_is_reciprocal_of_boost (Fc Q G K V : ℝ) (bq bq2 : BiQuad ℝ)
    (hK : K = Real.tan (Real.pi * Fc)) (hV : V = (10 : ℝ) ^ (G / 20))
    (_hQ : Q ≠ 0) (hG : 0 < G)
    (hD1 : 1 + K / Q + K ^ 2 ≠ 0) (hD2 : 1 + V * K / Q + K ^ 2 ≠ 0) :
    (setCoefficients .bq_type_peak Fc Q G bq).2.B0
      * (setCoefficients .bq_type_peak Fc Q (-G) bq2).2.B0 = 1 ∧
    (setCoefficients .bq_type_peak Fc Q (-G) bq2).2.B1
      = (setCoefficients .bq_type_peak Fc Q G bq).2.A0
        * (setCoefficients .bq_type_peak Fc Q (-G) bq2).2.B0 ∧
    (setCoefficients .bq_type_peak Fc Q (-G) bq2).2.B2
      = (setCoefficients .bq_type_peak Fc Q G bq).2.A1
        * (setCoefficients .bq_type_peak Fc Q (-G) bq2).2.B0 ∧
    (setCoefficients .bq_type_peak Fc Q (-G) bq2).2.A0
      = (setCoefficients .bq_type_peak Fc Q G bq).2.B1
        * (setCoefficients .bq_type_peak Fc Q (-G) bq2).2.B0 ∧
    (setCoefficients .bq_type_peak Fc Q (-G) bq2).2.A1
      = (setCoefficients .bq_type_peak Fc Q G bq).2.B2
        * (setCoefficients .bq_type_peak Fc Q (-G) bq2).2.B0 ∧
    ∀ z : ℂ, (setCoefficients .bq_type_peak Fc Q (-G) bq2).2.transfer z
      = ((setCoefficients .bq_type_peak Fc Q G bq).2.transfer z)⁻¹ := by
  have hVb : V = (10 : ℝ) ^ (|G| / 20) := by
    rw [abs_of_pos hG]
    exact hV
  have hVc : V = (10 : ℝ) ^ (|(-G)| / 20) := by
    rw [abs_neg, abs_of_pos hG]
    exact hV
  obtain ⟨b0, b1, b2, a1, a2⟩ := setCoefficients_peak_boost Fc Q G K V bq hK hVb hG.le
  obtain ⟨c0, c1, c2, d1, d2⟩ :=
    setCoefficients_peak_cut Fc Q (-G) K V bq2 hK hVc (neg_lt_zero.mpr hG)
  have hE1 : 1 + 1 / Q * K + K * K ≠ 0 := by
    intro h
    apply hD1
    rw [← h]
    ring
  have hE2 : 1 + V / Q * K + K * K ≠ 0 := by
    intro h
    apply hD2
    rw [← h]
    ring
  have h1 : 1 / (1 + 1 / Q * K + K * K) * (1 + 1 / Q * K + K * K) = 1 :=
    one_div_mul_cancel hE1
  have h2 : 1 / (1 + V / Q * K + K * K) * (1 + V / Q * K + K * K) = 1 :=
    one_div_mul_cancel hE2
  have e0 : (setCoefficients .bq_type_peak Fc Q G bq).2.B0
      * (setCoefficients .bq_type_peak Fc Q (-G) bq2).2.B0 = 1 := by
    rw [b0, c0]
    linear_combination
      (1 / (1 + V / Q * K + K * K) * (1 + V / Q * K + K * K)) * h1 + h2
  have e1 : (setCoefficients .bq_type_peak Fc Q (-G) bq2).2.B1
      = (setCoefficients .bq_type_peak Fc Q G bq).2.A0
        * (setCoefficients .bq_type_peak Fc Q (-G) bq2).2.B0 := by
    rw [c1, a1, c0]
    linear_combination (-(2 * (K * K - 1) * (1 / (1 + V / Q * K + K * K)))) * h1
  have e2 : (setCoefficients .bq_type_peak Fc Q (-G) bq2).2.B2
      = (setCoefficients .bq_type_peak Fc Q G bq).2.A1
        * (setCoefficients .bq_type_peak Fc Q (-G) bq2).2.B0 := by
    rw [c2, a2, c0]
    linear_combination
      (-((1 - 1 / Q * K + K * K) * (1 / (1 + V / Q * K + K * K)))) * h1
  have e3 : (setCoefficients .bq_type_peak Fc Q (-G) bq2).2.A0
      = (setCoefficients .bq_type_peak Fc Q G bq).2.B1
        * (setCoefficients .bq_type_peak Fc Q (-G) bq2).2.B0 := by
    rw [d1, b1, c0]
    linear_combination (-(2 * (K * K - 1) * (1 / (1 + V / Q * K + K * K)))) * h1
  have e4 : (setCoefficients .bq_type_peak Fc Q (-G) bq2).2.A1
      = (setCoefficients .bq_type_peak Fc Q G bq).2.B2
        * (setCoefficients .bq_type_peak Fc Q (-G) bq2).2.B0 := by
    rw [d2, b2, c0]
    linear_combination
      (-((1 - V / Q * K + K * K) * (1 / (1 + V / Q * K + K * K)))) * h1
  exact ⟨e0, e1, e2, e3, e4, fun z => transfer_reciprocal _ _ e0 e1 e2 e3 e4 z⟩

/-- Witness for C18: `Fc = 1/4` (so `K = 1`), `Q = 1`, `G = 20` (so `V = 10`). -/
theorem peak_cut_is_reciprocal_of_boost_witness :
    (0 : ℝ) < 20 ∧ (1 : ℝ) + 1 / 1 + 1 ^ 2 ≠ 0 ∧ (1 : ℝ) + 10 * 1 / 1 + 1 ^ 2 ≠ 0 ∧
    (setCoefficients .bq_type_peak (1 / 4) 1 20 ⟨1, 0, 0, 0, 0, 0, 0, true⟩).2.B0
      * (setCoefficients .bq_type_peak (1 / 4) 1 (-20) ⟨1, 0, 0, 0, 0, 0, 0, true⟩).2.B0 = 1 := by
  have htan : (1 : ℝ) = Real.tan (Real.pi * (1 / 4)) := by
    rw [show Real.pi * (1 / 4) = Real.pi / 4 by ring, Real.tan_pi_div_four]
  have hV : (10 : ℝ) = (10 : ℝ) ^ ((20 : ℝ) / 20) := by
    rw [div_self (by norm_num : (20 : ℝ) ≠ 0), Real.rpow_one]
  exact ⟨by norm_num, by norm_num, by norm_num,
    (peak_cut_is_reciprocal_of_boost (1 / 4) 1 20 1 10 ⟨1, 0, 0, 0, 0, 0, 0, true⟩
      ⟨1, 0, 0, 0, 0, 0, 0, true⟩ htan hV one_ne_zero (by norm_num) (by norm_num)
      (by norm_num)).1⟩

/-! ## The integrator pole of `PIDF` -/

/-- A stage with `1 + a1 + a2 = 0` has `z = 1` among its poles and is not stable. -/
theorem BiQuad.pole_at_one (s : BiQuad ℝ) (h : 1 + s.A0 + s.A1 = 0) :
    (1 : ℂ) ∈ s.poles ∧ s.stable = false := by
  constructor
  · have hD : s.A0 * s.A0 - 4 * s.A1 = (1 - s.A1) ^ 2 := by
      have h0 : s.A0 = -1 - s.A1 := by linarith
      rw [h0]
      ring
    have hD0 : 0 ≤ s.A0 * s.A0 - 4 * s.A1 := by
      rw [hD]
      exact sq_nonneg _
    have hp := s.poles_eq
    rw [csqrt_ofReal_nonneg hD0, hD, Real.sqrt_sq_eq_abs] at hp
    rw [hp]
    have hA : (s.A0 : ℂ) = -1 - (s.A1 : ℂ) := by
      have h0 : s.A0 = -1 - s.A1 := by linarith
      rw [h0]
      push_cast
      ring
    rcases le_or_lt s.A1 1 with h1 | h1
    · rw [abs_of_nonneg (by linarith), hA]
      apply List.mem_cons.mpr
      left
      push_cast
      ring
    · rw [abs_of_neg (by linarith), hA]
      apply List.mem_cons.mpr
      right
      apply List.mem_cons.mpr
      left
      push_cast
      ring
  · rw [← Bool.not_eq_true, BiQuad.stable_iff_triangle]
    rintro ⟨-, h2⟩
    have h3 := (abs_lt.mp h2).1
    linarith

/-- C19: for `N*Ts ≠ -2` the stage configured by `PIDF` has `1 + a1 + a2 = 0`,
so `z = 1` is one of the two values returned by `poles`, and `stable` returns
`false`. -/
theorem PIDF_has_integrator_pole (Kp Ki Kd N Ts : ℝ) (bq : BiQuad ℝ)
    (hNT : N * Ts ≠ -2) :
    1 + (bq.PIDF Kp Ki Kd N Ts).A0 + (bq.PIDF Kp Ki Kd N Ts).A1 = 0 ∧
    (1 : ℂ) ∈ (bq.PIDF Kp Ki Kd N Ts).poles ∧
    (bq.PIDF Kp Ki Kd N Ts).stable = false := by
  obtain ⟨-, -, -, hA0, hA1⟩ := BiQuad.PIDF_coeffs bq Kp Ki Kd N Ts
  have hbd : N * Ts + 2 ≠ 0 := fun h => hNT (by linarith)
  have hsum : 1 + (bq.PIDF Kp Ki Kd N Ts).A0 + (bq.PIDF Kp Ki Kd N Ts).A1 = 0 := by
    rw [hA0, hA1]
    field_simp
    ring
  exact ⟨hsum, BiQuad.pole_at_one _ hsum⟩

/-- Witness for C19: `Kp = Ki = Kd = N = 1`, `Ts = 2`. -/
theorem PIDF_has_integrator_pole_witness :
    (1 : ℝ) * 2 ≠ -2 ∧
    1 + ((⟨1, 0, 0, 0, 0, 0, 0, true⟩ : BiQuad ℝ).PIDF 1 1 1 1 2).A0
      + ((⟨1, 0, 0, 0, 0, 0, 0, true⟩ : BiQuad ℝ).PIDF 1 1 1 1 2).A1 = 0 ∧
    (1 : ℂ) ∈ ((⟨1, 0, 0, 0, 0, 0, 0, true⟩ : BiQuad ℝ).PIDF 1 1 1 1 2).poles ∧
    ((⟨1, 0, 0, 0, 0, 0, 0, true⟩ : BiQuad ℝ).PIDF 1 1 1 1 2).stable = false :=
  ⟨by norm_num, PIDF_has_integrator_pole 1 1 1 1 2 ⟨1, 0, 0, 0, 0, 0, 0, true⟩ (by norm_num)⟩

/-! ## Cascade order -/

/-- One sample through `a`-then-`b` and through `b2`-then-`a2`: equal outputs,
and the relation between the delay lines is kept. -/
theorem swapRel_step (a b a2 b2 : BiQuad α) (x : α) (h : swapRel a b a2 b2) :
    (b.step (a.step x).1).1 = (a2.step (b2.step x).1).1 ∧
    swapRel (a.step x).2 (b.step (a.step x).1).2
      (a2.step (b2.step x).1).2 (b2.step x).2 := by
  obtain ⟨⟨ha0, ha1, ha2, ha3, ha4⟩, ⟨hb0, hb1, hb2, hb3, hb4⟩, h0, h1, h2, h3⟩ := h
  have hy : (b.step (a.step x).1).1 = (a2.step (b2.step x).1).1 := by
    simp only [BiQuad.step, ← ha0, ← hb0]
    linear_combination h0
  refine ⟨hy, ⟨ha0, ha1, ha2, ha3, ha4⟩, ⟨hb0, hb1, hb2, hb3, hb4⟩, ?_, ?_, ?_, ?_⟩
  · simp only [BiQuad.step, ← ha0, ← ha1, ← ha2, ← ha3, ← ha4, ← hb0, ← hb1, ← hb2, ← hb3,
      ← hb4]
    linear_combination h1 - (a.A0 + b.A0) * h0
  · simp only [BiQuad.step, ← ha0, ← ha1, ← ha2, ← ha3, ← ha4, ← hb0, ← hb1, ← hb2, ← hb3,
      ← hb4]
    linear_combination h2 - (a.A1 + a.A0 * b.A0 + b.A1) * h0
  · simp only [BiQuad.step, ← ha0, ← ha1, ← ha2, ← ha3, ← ha4, ← hb0, ← hb1, ← hb2, ← hb3,
      ← hb4]
    linear_combination h3 - (a.A0 * b.A1 + a.A1 * b.A0) * h0
  · simp only [BiQuad.step, ← ha0, ← ha1, ← ha2, ← ha3, ← ha4, ← hb0, ← hb1, ← hb2, ← hb3,
      ← hb4]
    linear_combination (-(a.A1 * b.A1)) * h0

theorem BiQuadChain.step_pair (p q : ℕ) (hpq : p ≠ q) (mem : Store α) (x : α) :
    ((BiQuadChain.compose p q).step mem x).1 = ((mem q).step ((mem p).step x).1).1 ∧
    ((BiQuadChain.compose p q).step mem x).2 p = ((mem p).step x).2 ∧
    ((BiQuadChain.compose p q).step mem x).2 q = ((mem q).step ((mem p).step x).1).2 := by
  have hqp : q ≠ p := fun h => hpq h.symm
  have hc : (BiQuadChain.compose p q).biquads = [p, q] := rfl
  simp only [BiQuadChain.step, hc, BiQuadChain.stepLoop, Function.update_same,
    Function.update_noteq hqp, Function.update_noteq hpq, and_self]

theorem BiQuadChain.chain_run_cons (c : BiQuadChain) (mem : Store α) (x : α) (xs : List α) :
    c.run mem (x :: xs) =
      ((c.step mem x).1 :: (c.run (c.step mem x).2 xs).1, (c.run (c.step mem x).2 xs).2) := rfl

/-- Running the two orders over the same inputs from related stores gives the
same output list. -/
theorem swapRel_run (xs : List α) (m1 m2 : Store α)
    (h : swapRel (m1 0) (m1 1) (m2 0) (m2 1)) :
    ((BiQuadChain.compose 0 1).run m1 xs).1 = ((BiQuadChain.compose 1 0).run m2 xs).1 := by
  induction xs generalizing m1 m2 with
  | nil => rfl
  | cons x xs ih =>
    obtain ⟨hy1, hs1a, hs1b⟩ := BiQuadChain.step_pair 0 1 Nat.zero_ne_one m1 x
    obtain ⟨hy2, hs2b, hs2a⟩ := BiQuadChain.step_pair 1 0 Nat.one_ne_zero m2 x
    obtain ⟨hy, hrel⟩ := swapRel_step (m1 0) (m1 1) (m2 0) (m2 1) x h
    rw [BiQuadChain.chain_run_cons, BiQuadChain.chain_run_cons]
    have hout : ((BiQuadChain.compose 0 1).step m1 x).1
        = ((BiQuadChain.compose 1 0).step m2 x).1 := by
      rw [hy1, hy2]
      exact hy
    have hnext : swapRel (((BiQuadChain.compose 0 1).step m1 x).2 0)
        (((BiQuadChain.compose 0 1).step m1 x).2 1)
        (((BiQuadChain.compose 1 0).step m2 x).2 0)
        (((BiQuadChain.compose 1 0).step m2 x).2 1) := by
      rw [hs1a, hs1b, hs2a, hs2b]
      exact hrel
    rw [hout, ih _ _ hnext]

/-- C20: for any two stages `A` (at address 0) and `B` (at address 1) with
arbitrary coefficients, both starting from zero state, and every finite input
list, feeding the list sample by sample through `BiQuadChain::step` of the
chain `A`-then-`B` yields the same output list as feeding it through the chain
`B`-then-`A` (again from zero state). -/
theorem cascade_order_does_not_change_output
    (a0 a1 a2 a3 a4 b0 b1 b2 b3 b4 : ℝ) (ra rb : Bool) (xs : List ℝ) :
    ((BiQuadChain.compose 0 1).run
      (twoStages (⟨a0, a1, a2, a3, a4, 0, 0, ra⟩ : BiQuad ℝ) ⟨b0, b1, b2, b3, b4, 0, 0, rb⟩)
      xs).1 =
    ((BiQuadChain.compose 1 0).run
      (twoStages (⟨a0, a1, a2, a3, a4, 0, 0, ra⟩ : BiQuad ℝ) ⟨b0, b1, b2, b3, b4, 0, 0, rb⟩)
      xs).1 := by
  apply swapRel_run
  simp [swapRel, BiQuad.sameCoeffs, twoStages]

end BiQuadModel
